import Mathlib

/-!
# Tetris engine (`src/tetris.c`): shallow embedding and verified properties

The C program keeps one `GameState` and mutates it in place.  Here every C
function becomes a Lean function from the old state to the new one.

* C `int` values are `Int`s.  The `int` additions whose overflow can be
  observed are 32-bit additions `add_int`, which wrap around modulo `2^32`: the
  position sums of `check_collision` (lines 106-107), the committed
  translations `x--`, `x++`, `y++` (lines 440, 446, 452, 475) and the score
  updates (lines 179 and 453).  The remaining `int` arithmetic is exact, which
  agrees with the 32-bit result wherever it is used: loop counters and line
  counts stay below 41, the kick committed by `rotate_piece` cannot overflow
  (`rotate_commit_int`), the cell positions of `merge_piece` are used only
  inside the board (`merge_sum_int`), and `type + 1` is taken of a type in
  `0..6`.
* `Uint32` time stamps are `Nat`, with the subtraction taken modulo `2^32`.
* `board[r][c]` and `SHAPES[t]` are indexed by C `int` values.  A read or a
  write outside the array is undefined behaviour; the embedding makes every
  such access fallible (`none`), so a function that returns `some _` has
  provably stayed inside its arrays.
* `rand()` and `SDL_GetTicks()` are inputs of the functions that call them.
* Rendering, audio and `printf` are not modelled.  Calls of `save_highscore`
  are recorded in a log, oldest first.
-/

namespace Tetris

/-! ## Constants and data model (tetris.c lines 10-66) -/

/-- Constant `BOARD_WIDTH` of the source (line 13). -/
abbrev BOARD_WIDTH : Int := 10

/-- Constant `BOARD_HEIGHT` of the source (line 14). -/
abbrev BOARD_HEIGHT : Int := 20

/-- The largest value of a 32-bit C `int`. -/
abbrev INT_MAX : Int := 2147483647

/-- The smallest value of a 32-bit C `int`. -/
abbrev INT_MIN : Int := -2147483648

/-- The 32-bit two's complement value congruent to `n` modulo `2^32`. -/
def wrap_int (n : Int) : Int :=
  (n + 2147483648) % 4294967296 - 2147483648

/-- The sum `a + b` of two C `int` values as a 32-bit machine computes it: the
exact sum when it fits, the sum wrapped around modulo `2^32` when it overflows.
Operands outside the range of `int`, which no C state holds, are added
exactly. -/
def add_int (a b : Int) : Int :=
  if (INT_MIN ≤ a ∧ a ≤ INT_MAX) ∧ (INT_MIN ≤ b ∧ b ≤ INT_MAX) then wrap_int (a + b)
  else a + b

/-- A 4x4 grid `int shape[4][4]`: a cell is occupied when it is non-zero. -/
abbrev Shape := Fin 4 → Fin 4 → Int

/-- The grid `int board[BOARD_HEIGHT][BOARD_WIDTH]`: row first, then column. -/
abbrev Board := Fin 20 → Fin 10 → Int

/-- The struct `Piece` (lines 50-54). -/
structure Piece where
  shape : Shape
  x : Int
  y : Int
  type : Int

/-- The struct `GameState` (lines 57-66). -/
structure GameState where
  board : Board
  current : Piece
  score : Int
  high_score : Int
  game_over : Bool
  game_started : Bool
  last_fall_time : Nat
  fall_speed : Int

/-- The table `SHAPES[7][4][4]` (lines 21-36), in source order I, O, T, S, Z, J, L. -/
def SHAPES : Fin 7 → Shape :=
  ![ ![![0,0,0,0], ![1,1,1,1], ![0,0,0,0], ![0,0,0,0]],
     ![![0,0,0,0], ![0,1,1,0], ![0,1,1,0], ![0,0,0,0]],
     ![![0,0,0,0], ![0,1,0,0], ![1,1,1,0], ![0,0,0,0]],
     ![![0,0,0,0], ![0,1,1,0], ![1,1,0,0], ![0,0,0,0]],
     ![![0,0,0,0], ![1,1,0,0], ![0,1,1,0], ![0,0,0,0]],
     ![![0,0,0,0], ![1,0,0,0], ![1,1,1,0], ![0,0,0,0]],
     ![![0,0,0,0], ![0,0,1,0], ![1,1,1,0], ![0,0,0,0]] ]

/-! ## Array accesses -/

/-- The read `board[r][c]` for C `int` indices; `none` outside the array. -/
def readCell (b : Board) (r c : Int) : Option Int :=
  if h : 0 ≤ r ∧ r < 20 ∧ 0 ≤ c ∧ c < 10 then
    some (b ⟨r.toNat, by omega⟩ ⟨c.toNat, by omega⟩)
  else none

/-- The write `board[r][c] = v` for C `int` indices; `none` outside the array. -/
def writeCell (b : Board) (r c : Int) (v : Int) : Option Board :=
  if h : 0 ≤ r ∧ r < 20 ∧ 0 ≤ c ∧ c < 10 then
    some (fun r' c' =>
      if r' = ⟨r.toNat, by omega⟩ ∧ c' = ⟨c.toNat, by omega⟩ then v else b r' c')
  else none

/-- The read `SHAPES[type]` for a C `int` index; `none` outside the table. -/
def readShape (type : Int) : Option Shape :=
  if h : 0 ≤ type ∧ type < 7 then some (SHAPES ⟨type.toNat, by omega⟩) else none

/-- The index pairs visited by `for (i = 0; i < 4; i++) for (j = 0; j < 4; j++)`,
in the order the nested loops visit them. -/
def cells4x4 : List (Fin 4 × Fin 4) :=
  (List.finRange 4).flatMap fun i => (List.finRange 4).map fun j => (i, j)

/-- The column indices visited by `for (j = 0; j < BOARD_WIDTH; j++)`. -/
def columns : List Int := [0, 1, 2, 3, 4, 5, 6, 7, 8, 9]

/-! ## `init_piece` (lines 88-99) -/

/-- The function `init_piece`: type, centred position, and a copy of `SHAPES[type]`. -/
def init_piece (type : Int) : Option Piece :=
  match readShape type with
  | none => none
  | some s =>
    some { type := type
           x := BOARD_WIDTH / 2 - 2
           y := 0
           shape := fun i j => s i j }

/-! ## `check_collision` (lines 102-126) -/

/-- The body of the two nested loops of `check_collision`, run over the remaining
index pairs: `some true` is an early `return true`, `some false` the final
`return false`. -/
def check_collision_from (game : GameState) (piece : Piece) (dx dy : Int) :
    List (Fin 4 × Fin 4) → Option Bool
  | [] => some false
  | (i, j) :: rest =>
    if piece.shape i j ≠ 0 then
      let new_x := add_int (add_int piece.x (j.val : Int)) dx
      let new_y := add_int (add_int piece.y (i.val : Int)) dy
      if new_x < 0 ∨ new_x ≥ BOARD_WIDTH then some true
      else if new_y ≥ BOARD_HEIGHT then some true
      else if new_y ≥ 0 then
        match readCell game.board new_y new_x with
        | none => none
        | some v => if v ≠ 0 then some true else check_collision_from game piece dx dy rest
      else check_collision_from game piece dx dy rest
    else check_collision_from game piece dx dy rest

/-- The function `check_collision`. -/
def check_collision (game : GameState) (piece : Piece) (dx dy : Int) : Option Bool :=
  check_collision_from game piece dx dy cells4x4

/-! ## `merge_piece` (lines 129-141) -/

/-- The body of the two nested loops of `merge_piece`, run over the remaining
index pairs. -/
def merge_piece_from (game : GameState) : List (Fin 4 × Fin 4) → Option GameState
  | [] => some game
  | (i, j) :: rest =>
    if game.current.shape i j ≠ 0 then
      let x := game.current.x + (j.val : Int)
      let y := game.current.y + (i.val : Int)
      if y ≥ 0 ∧ y < BOARD_HEIGHT ∧ x ≥ 0 ∧ x < BOARD_WIDTH then
        match writeCell game.board y x (game.current.type + 1) with
        | none => none
        | some b => merge_piece_from { game with board := b } rest
      else merge_piece_from game rest
    else merge_piece_from game rest

/-- The function `merge_piece`. -/
def merge_piece (game : GameState) : Option GameState :=
  merge_piece_from game cells4x4

/-! ## `clear_lines` (lines 144-181) -/

/-- The loop of lines 152-157 over the remaining columns: `some false` is the
`break` with `full = false`, `some true` the loop running to its end. -/
def row_full_from (b : Board) (i : Int) : List Int → Option Bool
  | [] => some true
  | j :: rest =>
    match readCell b i j with
    | none => none
    | some v => if v = 0 then some false else row_full_from b i rest

/-- The loop of lines 165-167 over the remaining columns:
`board[k][j] = board[k-1][j]`. -/
def copy_row_from (b : Board) (k : Int) : List Int → Option Board
  | [] => some b
  | j :: rest =>
    match readCell b (k - 1) j with
    | none => none
    | some v =>
      match writeCell b k j v with
      | none => none
      | some b' => copy_row_from b' k rest

/-- The loop `for (k = ...; k > 0; k--)` of lines 164-168, by recursion on the
current value of `k`. -/
def shift_rows_from (b : Board) : Nat → Option Board
  | 0 => some b
  | k + 1 =>
    match copy_row_from b ((k : Int) + 1) columns with
    | none => none
    | some b' => shift_rows_from b' k

/-- The loop of lines 171-173 over the remaining columns: `board[0][j] = 0`. -/
def clear_top_from (b : Board) : List Int → Option Board
  | [] => some b
  | j :: rest =>
    match writeCell b 0 j 0 with
    | none => none
    | some b' => clear_top_from b' rest

/-- The loop of lines 148-177 started at row index `i` with `lines_cleared`
lines counted so far.  The loop is not structurally recursive (after a clear,
`i++` and then `i--` leave `i` unchanged), so each evaluation of the loop
condition `i >= 0` uses one unit of `fuel`; `none` is also the result of an
access outside the board. -/
def clear_lines_loop : Nat → Board → Int → Int → Option (Board × Int)
  | 0, _, _, _ => none
  | fuel + 1, b, i, lines_cleared =>
    if i ≥ 0 then
      match row_full_from b i columns with
      | none => none
      | some true =>
        match shift_rows_from b i.toNat with
        | none => none
        | some b1 =>
          match clear_top_from b1 columns with
          | none => none
          | some b2 => clear_lines_loop fuel b2 (i + 1 - 1) (lines_cleared + 1)
      | some false => clear_lines_loop fuel b (i - 1) lines_cleared
    else some (b, lines_cleared)

/-- The function `clear_lines` with an explicit bound on the number of
evaluations of the loop condition: the returned count and the new state. -/
def clear_lines_fuel (fuel : Nat) (game : GameState) : Option (Int × GameState) :=
  match clear_lines_loop fuel game.board (BOARD_HEIGHT - 1) 0 with
  | none => none
  | some (b, lines_cleared) =>
    some (lines_cleared,
      { game with board := b, score := add_int game.score (lines_cleared * 100) })

/-- The function `clear_lines`.  The loop condition is evaluated at most 41
times (20 rows, at most 20 clears, the final failing test), see
`clear_lines_fuel_stable`. -/
def clear_lines (game : GameState) : Option (Int × GameState) :=
  clear_lines_fuel 41 game

/-! ## `rotate_piece` (lines 184-214) -/

/-- The transform of lines 190-194: `temp[i][j] = shape[3 - j][i]`. -/
def rotate_shape (s : Shape) : Shape :=
  fun i j => s ⟨3 - j.val, by omega⟩ i

/-- The array `kicks` of line 204. -/
def kicks : List Int := [0, -1, 1, -2, 2]

/-- The loop of lines 205-211 over the remaining kicks; the result is the
returned flag and the new state. -/
def rotate_piece_from (game : GameState) (rotated : Piece) :
    List Int → Option (Bool × GameState)
  | [] => some (false, game)
  | k :: rest =>
    match check_collision game rotated k 0 with
    | none => none
    | some false => some (true, { game with current := { rotated with x := rotated.x + k } })
    | some true => rotate_piece_from game rotated rest

/-- The function `rotate_piece`. -/
def rotate_piece (game : GameState) : Option (Bool × GameState) :=
  rotate_piece_from game
    { game.current with shape := rotate_shape game.current.shape } kicks

/-! ## `reset_game` (lines 290-307) -/

/-- The function `reset_game`; `ticks` is the value of `SDL_GetTicks()` and
`rnd` the value of `rand()`. -/
def reset_game (game : GameState) (ticks rnd : Nat) : Option GameState :=
  match init_piece ((rnd % 7 : Nat) : Int) with
  | none => none
  | some p =>
    some { board := fun _ _ => 0
           current := p
           score := 0
           high_score := game.high_score
           game_over := false
           game_started := true
           fall_speed := 500
           last_fall_time := ticks }

/-! ## The main loop (lines 412-539) -/

/-- Key symbols distinguished by the event handler. -/
inductive Key where
  | SDLK_SPACE | SDLK_LEFT | SDLK_RIGHT | SDLK_DOWN | SDLK_UP | SDLK_ESCAPE | other
  deriving DecidableEq, Repr

/-- Events distinguished by the event handler.  A key press carries the values
`SDL_GetTicks()` and `rand()` would return if its handler called them. -/
inductive Event where
  | SDL_QUIT
  | SDL_KEYDOWN (sym : Key) (ticks rnd : Nat)
  | other
  deriving DecidableEq, Repr

/-- The variables of `main` that the loop updates, with the log of the values
passed to `save_highscore`, oldest first. -/
structure MainState where
  game : GameState
  running : Bool
  saved : List Int

/-- The `switch` of lines 437-460 (input while playing). -/
def playing_input (game : GameState) : Key → Option GameState
  | .SDLK_LEFT =>
    match check_collision game game.current (-1) 0 with
    | none => none
    | some false =>
      some { game with current := { game.current with x := add_int game.current.x (-1) } }
    | some true => some game
  | .SDLK_RIGHT =>
    match check_collision game game.current 1 0 with
    | none => none
    | some false =>
      some { game with current := { game.current with x := add_int game.current.x 1 } }
    | some true => some game
  | .SDLK_DOWN =>
    match check_collision game game.current 0 1 with
    | none => none
    | some false =>
      some { game with
             current := { game.current with y := add_int game.current.y 1 }
             score := add_int game.score 1 }
    | some true => some game
  | .SDLK_UP =>
    match rotate_piece game with
    | none => none
    | some (_, game') => some game'
  | _ => some game

/-- The key handler of lines 421-467. -/
def handle_keydown (s : MainState) (sym : Key) (ticks rnd : Nat) : Option MainState :=
  let handled : Option GameState :=
    if !s.game.game_started then
      if sym = Key.SDLK_SPACE then
        match reset_game s.game ticks rnd with
        | none => none
        | some g => some { g with game_started := true }
      else some s.game
    else if s.game.game_over then
      if sym = Key.SDLK_SPACE then reset_game s.game ticks rnd else some s.game
    else playing_input s.game sym
  match handled with
  | none => none
  | some g =>
    some { s with game := g
                  running := if sym = Key.SDLK_ESCAPE then false else s.running }

/-- One iteration of the event loop body (lines 417-467). -/
def handle_event (s : MainState) : Event → Option MainState
  | .SDL_QUIT => some { s with running := false }
  | .SDL_KEYDOWN sym ticks rnd => handle_keydown s sym ticks rnd
  | .other => some s

/-- The loop `while (SDL_PollEvent(&event))` over the pending events. -/
def handle_events (s : MainState) : List Event → Option MainState
  | [] => some s
  | e :: rest =>
    match handle_event s e with
    | none => none
    | some s' => handle_events s' rest

/-- The fall step of lines 474-499; `rnd` is the value of `rand()`. -/
def fall_step (s : MainState) (rnd : Nat) : Option MainState :=
  match check_collision s.game s.game.current 0 1 with
  | none => none
  | some false =>
    some { s with game := { s.game with
                            current := { s.game.current with y := add_int s.game.current.y 1 } } }
  | some true =>
    match merge_piece s.game with
    | none => none
    | some g1 =>
      match clear_lines g1 with
      | none => none
      | some (_, g2) =>
        match init_piece ((rnd % 7 : Nat) : Int) with
        | none => none
        | some p =>
          let g3 : GameState := { g2 with current := p }
          match check_collision g3 g3.current 0 0 with
          | none => none
          | some false => some { s with game := g3 }
          | some true =>
            let g4 : GameState := { g3 with game_over := true }
            if g4.score > g4.high_score then
              let g5 : GameState := { g4 with high_score := g4.score }
              some { s with game := g5, saved := s.saved ++ [g5.high_score] }
            else some { s with game := g4 }

/-- The test `current_time - game.last_fall_time > game.fall_speed` of line 473:
the subtraction is done on `Uint32`, and `fall_speed` is converted to unsigned. -/
def fall_due (game : GameState) (current_time : Nat) : Bool :=
  decide (((current_time : Int) - (game.last_fall_time : Int)) % 4294967296
    > game.fall_speed % 4294967296)

/-- The game logic of lines 471-503; `current_time` was read at the top of the
loop iteration (line 413). -/
def game_logic (s : MainState) (current_time rnd : Nat) : Option MainState :=
  if s.game.game_started && !s.game.game_over then
    if fall_due s.game current_time then
      match fall_step s rnd with
      | none => none
      | some s' => some { s' with game := { s'.game with last_fall_time := current_time } }
    else some s
  else some s

/-- One iteration of the loop `while (running)`: the pending events, then the
game logic. -/
def main_iteration (s : MainState) (current_time : Nat) (events : List Event)
    (rnd : Nat) : Option MainState :=
  match handle_events s events with
  | none => none
  | some s' => game_logic s' current_time rnd

/-! ## Notions used to state the properties -/

/-- One occupied cell at offset `(dx, dy)` is acceptable to `check_collision`. -/
def cellFree (game : GameState) (piece : Piece) (dx dy : Int) (i j : Fin 4) : Prop :=
  0 ≤ add_int (add_int piece.x (j.val : Int)) dx ∧
  add_int (add_int piece.x (j.val : Int)) dx < 10 ∧
  add_int (add_int piece.y (i.val : Int)) dy < 20 ∧
  (0 ≤ add_int (add_int piece.y (i.val : Int)) dy →
    readCell game.board (add_int (add_int piece.y (i.val : Int)) dy)
      (add_int (add_int piece.x (j.val : Int)) dx) = some 0)

/-- The board after the cells of `piece` listed in `l` have been merged into `b`. -/
def mergedBoard (piece : Piece) (b : Board) (l : List (Fin 4 × Fin 4)) : Board :=
  fun r c =>
    if ∃ ij ∈ l, piece.shape ij.1 ij.2 ≠ 0 ∧
        piece.y + (ij.1.val : Int) = (r.val : Int) ∧ piece.x + (ij.2.val : Int) = (c.val : Int)
    then piece.type + 1 else b r c

/-- A row is full when none of its 10 cells is empty. -/
def rowFull (row : Fin 10 → Int) : Bool := decide (∀ c : Fin 10, row c ≠ 0)

/-- A row of empty cells. -/
def emptyRow : Fin 10 → Int := fun _ => 0

/-- The rows of a board, top (row 0) to bottom (row 19). -/
def boardRows (b : Board) : List (Fin 10 → Int) := List.ofFn b

/-- The board after row `i` was removed: rows above it moved down by one and
row 0 emptied (lines 164-173). -/
def removeRow (b : Board) (i : Nat) : Board :=
  fun r c =>
    if r.val = 0 then 0
    else if h : r.val ≤ i then b ⟨r.val - 1, by omega⟩ c
    else b r c

/-- A board whose rows 2 and 5 are full and whose other rows each have one empty
cell. -/
def sampleBoard : Board :=
  fun r c =>
    if r.val = 2 ∨ r.val = 5 then 1
    else if c.val = r.val % 10 then 0 else (r.val : Int) + 1

/-- A playing state on `sampleBoard`. -/
def sampleGame : GameState :=
  { board := sampleBoard
    current := { shape := SHAPES 0, x := 3, y := 0, type := 0 }
    score := 40
    high_score := 100
    game_over := false
    game_started := true
    last_fall_time := 0
    fall_speed := 500 }

/-- A playing state whose board has cells in the two bottom rows but no full
row. -/
def partialGame : GameState :=
  { board := fun r c => if 18 ≤ r.val ∧ c.val ≠ 4 then 3 else 0
    current := { shape := SHAPES 2, x := 3, y := 0, type := 2 }
    score := 7
    high_score := 100
    game_over := false
    game_started := true
    last_fall_time := 0
    fall_speed := 500 }

/-- A vertical I piece against the right wall of an empty board: its occupied
column is board column 9. -/
def wallGame : GameState :=
  { board := fun _ _ => 0
    current := { shape := rotate_shape (SHAPES 0), x := 7, y := 5, type := 0 }
    score := 12
    high_score := 100
    game_over := false
    game_started := true
    last_fall_time := 0
    fall_speed := 500 }

/-- A vertical I piece inside a well one column wide (column 4), every other
cell of the board being occupied. -/
def wellGame : GameState :=
  { board := fun _ c => if c.val = 4 then 0 else 5
    current := { shape := rotate_shape (SHAPES 0), x := 2, y := 5, type := 0 }
    score := 12
    high_score := 100
    game_over := false
    game_started := true
    last_fall_time := 0
    fall_speed := 500 }

/-- A playing session with a vertical I piece at `x = 3` and row `y` over an
empty board (its occupied column is board column 5). -/
def dropState (y : Int) : MainState :=
  { game :=
      { board := fun _ _ => 0
        current := { shape := rotate_shape (SHAPES 0), x := 3, y := y, type := 0 }
        score := 0
        high_score := 100
        game_over := false
        game_started := true
        last_fall_time := 0
        fall_speed := 500 }
    running := true
    saved := [] }

/-- A playing session about to end: an O piece rests at the top of the board on
occupied cells of row 3, with the given score and stored high score. -/
def toppedState (score high_score : Int) : MainState :=
  { game :=
      { board := fun r c => if r.val = 3 ∧ (c.val = 4 ∨ c.val = 5) then 7 else 0
        current := { shape := SHAPES 1, x := 3, y := 0, type := 1 }
        score := score
        high_score := high_score
        game_over := false
        game_started := true
        last_fall_time := 0
        fall_speed := 500 }
    running := true
    saved := [] }

/-- The value of `current_time - game.last_fall_time` on `Uint32` (line 473). -/
def elapsed (game : GameState) (current_time : Nat) : Int :=
  ((current_time : Int) - (game.last_fall_time : Int)) % 4294967296

/-- A session on the start screen: the game has not been started, and the other
fields hold left-over values. -/
def idleState : MainState :=
  { game := { (toppedState 500 100).game with game_started := false }
    running := true
    saved := [] }

/-- A finished session: the state `toppedState 500 100` after its game ended. -/
def overState : MainState :=
  { game := { (toppedState 500 100).game with game_over := true, high_score := 500 }
    running := true
    saved := [500] }

/-- The state every reset with time 7000 and random value 9 produces from a
state with high score `high_score`: a T piece (type `9 % 7 = 2`) over an empty
board. -/
def freshGame (high_score : Int) : GameState :=
  { board := fun _ _ => 0
    current := { shape := SHAPES ⟨9 % 7, Nat.mod_lt _ (by decide)⟩
                 x := 3
                 y := 0
                 type := ((9 % 7 : Nat) : Int) }
    score := 0
    high_score := high_score
    game_over := false
    game_started := true
    last_fall_time := 7000
    fall_speed := 500 }

/-- The number of occupied cells of a 4x4 shape. -/
def occupiedCount (s : Shape) : Nat :=
  (Finset.univ.filter (fun ij : Fin 4 × Fin 4 => s ij.1 ij.2 ≠ 0)).card

/-- A state whose three top rows are full, over an otherwise empty board. -/
def stackGame : GameState :=
  { sampleGame with board := fun r _ => if r.val ≤ 2 then 6 else 0 }

/-- One step of the session: an event taken from the queue, or the game logic
run at time `current_time` with `rand()` returning `rnd`. -/
inductive Input where
  | event (e : Event)
  | tick (current_time rnd : Nat)

/-- The effect of one input. -/
def apply_input (s : MainState) : Input → Option MainState
  | Input.event e => handle_event s e
  | Input.tick current_time rnd => game_logic s current_time rnd

/-- The effect of a sequence of inputs.  Every run of the main loop is such a
sequence: the events of an iteration followed by one tick. -/
def run_inputs (s : MainState) : List Input → Option MainState
  | [] => some s
  | i :: rest =>
    match apply_input s i with
    | none => none
    | some s' => run_inputs s' rest

/-- The states reachable from a reset: `reset_game` is run on some state, then
any inputs follow. -/
def ReachableFromReset (s : MainState) : Prop :=
  ∃ (s0 : MainState) (ticks rnd : Nat) (g : GameState) (inputs : List Input),
    reset_game s0.game ticks rnd = some g ∧
    run_inputs { s0 with game := g } inputs = some s

/-- The facts that hold of the game in every state reachable from a reset. -/
structure GameInv (g : GameState) : Prop where
  started : g.game_started = true
  score_int : INT_MIN ≤ g.score ∧ g.score ≤ INT_MAX
  cells : ∀ (r : Fin 20) (c : Fin 10), 0 ≤ g.board r c ∧ g.board r c ≤ 7
  type_range : 0 ≤ g.current.type ∧ g.current.type ≤ 6
  x_range : -3 ≤ g.current.x ∧ g.current.x ≤ 9
  y_range : 0 ≤ g.current.y ∧ g.current.y ≤ 19
  four : occupiedCount g.current.shape = 4
  free : g.game_over = false → check_collision g g.current 0 0 = some false

/-- The two inputs of the sample run: a soft drop, then a fall tick at time 8000. -/
def playedInputs : List Input :=
  [Input.event (Event.SDL_KEYDOWN Key.SDLK_DOWN 0 0), Input.tick 8000 3]

/-- The state of the session started from `idleState` (reset at time 7000 with
random value 9) after `playedInputs`: the T piece is at row 2 and one point was
scored. -/
def playedState : MainState :=
  { idleState with
    game := { freshGame 100 with
              current := { (freshGame 100).current with y := 2 }
              score := 1
              last_fall_time := 8000 } }

/-- Eighteen fall ticks, one second apart, each drawing the random value 1. -/
def lockInputs : List Input :=
  (List.range 18).map (fun k => Input.tick (8000 + 1000 * k) 1)

/-- The session started from `idleState` (reset at time 7000 with random value
9) after `lockInputs`: the T piece has fallen and is locked at the bottom, and
an O piece has been spawned. -/
def lockedState : MainState :=
  (run_inputs { idleState with game := freshGame 100 } lockInputs).getD idleState

/-- A vertical I piece (occupied cells in shape column 2) at the largest `int`
column. -/
def farPiece : Piece :=
  { shape := rotate_shape (SHAPES 0), x := 2147483647, y := 0, type := 0 }

/-- A horizontal I piece (occupied cells in shape row 2) two rows short of the
largest `int` row. -/
def lowPiece : Piece :=
  { shape := rotate_shape (rotate_shape (SHAPES 0)), x := 3, y := 2147483646, type := 0 }

/-- A state with one full row (row 0) whose score is 47 below `INT_MAX`. -/
def overflowGame : GameState :=
  { sampleGame with board := fun r _ => if r.val = 0 then 1 else 0, score := 2147483600 }

/-- The state `s` with its score replaced by `k`. -/
def setScore (s : MainState) (k : Int) : MainState :=
  { s with game := { s.game with score := k } }

/-- The run of a sequence of inputs that stays in the Playing phase: `none` as
soon as an input is applied outside the Playing phase or ends the game. -/
def play_inputs (s : MainState) : List Input → Option MainState
  | [] => some s
  | i :: rest =>
    if s.game.game_started && !s.game.game_over then
      match apply_input s i with
      | none => none
      | some s1 => if s1.game.game_over then none else play_inputs s1 rest
    else none

/-- Field by field comparison of two sessions. -/
def sameState (s t : MainState) : Bool :=
  decide ((∀ r c, s.game.board r c = t.game.board r c) ∧
    (∀ i j, s.game.current.shape i j = t.game.current.shape i j) ∧
    s.game.current.x = t.game.current.x ∧ s.game.current.y = t.game.current.y ∧
    s.game.current.type = t.game.current.type ∧ s.game.score = t.game.score ∧
    s.game.high_score = t.game.high_score ∧ s.game.game_over = t.game.game_over ∧
    s.game.game_started = t.game.game_started ∧
    s.game.last_fall_time = t.game.last_fall_time ∧ s.game.fall_speed = t.game.fall_speed ∧
    s.running = t.running ∧ s.saved = t.saved)

/-- Presses of the LEFT key. -/
def leftKeys (n : Nat) : List Input :=
  List.replicate n (Input.event (Event.SDL_KEYDOWN Key.SDLK_LEFT 0 0))

/-- Presses of the RIGHT key. -/
def rightKeys (n : Nat) : List Input :=
  List.replicate n (Input.event (Event.SDL_KEYDOWN Key.SDLK_RIGHT 0 0))

/-- Eighteen fall ticks at alternating times 1000 and 2000, each drawing the
random value 1 (an O piece): 17 descents of a piece spawned over free columns
and the tick on which it lands. -/
def fallTicks : List Input :=
  (List.replicate 9 [Input.tick 1000 1, Input.tick 2000 1]).flatten

/-- The 101 inputs that bring four O pieces to rest side by side on the two
bottom rows of an empty board (moved to x = -1, 1, 3, 5 and left to fall) and a
fifth O piece to x = 7, y = 17, just above the floor. -/
def placeInputs : List Input :=
  leftKeys 4 ++ fallTicks ++ (leftKeys 2 ++ fallTicks) ++ fallTicks
    ++ (rightKeys 2 ++ fallTicks)
    ++ (rightKeys 4 ++ (List.replicate 8 [Input.tick 1000 1, Input.tick 2000 1]).flatten
        ++ [Input.tick 1000 1])

/-- The 102 inputs of one cycle: `placeInputs`, then the fall tick on which the
fifth piece lands and completes rows 18 and 19. -/
def cycleInputs : List Input :=
  placeInputs ++ [Input.tick 2000 1]

/-- The inputs of `m` consecutive cycles. -/
def cycles : Nat → List Input
  | 0 => []
  | m + 1 => cycleInputs ++ cycles m

/-- A playing session with score `k`: an O piece at its spawn position over an
empty board, the last fall stamped at time 2000.  With `k = 0` it is the state
after a reset of `idleState` at time 2000 with random value 1. -/
def cycleState (k : Int) : MainState :=
  { game :=
      { board := fun _ _ => 0
        current := { shape := SHAPES ⟨1 % 7, Nat.mod_lt _ (by decide)⟩
                     x := 3
                     y := 0
                     type := ((1 % 7 : Nat) : Int) }
        score := k
        high_score := 100
        game_over := false
        game_started := true
        last_fall_time := 2000
        fall_speed := 500 }
    running := true
    saved := [] }

/-- A playing session with score `k` one fall tick before two rows are
completed: four O pieces rest on rows 18 and 19 in columns 0 to 7, and the
active O piece is above columns 8 and 9, just over the floor. -/
def lastState (k : Int) : MainState :=
  { game :=
      { board := fun r c => if 18 ≤ r.val ∧ c.val ≤ 7 then 2 else 0
        current := { shape := SHAPES 1, x := 7, y := 17, type := 1 }
        score := k
        high_score := 100
        game_over := false
        game_started := true
        last_fall_time := 1000
        fall_speed := 500 }
    running := true
    saved := [] }

/-! ## Facts about the array accesses -/

theorem add_int_exact (a b : Int) (h : INT_MIN ≤ a + b ∧ a + b ≤ INT_MAX) :
    add_int a b = a + b := by
  unfold add_int wrap_int
  simp only [INT_MIN, INT_MAX] at h ⊢
  split_ifs
  · omega
  · rfl

theorem add_int_zero (a : Int) : add_int a 0 = a := by
  unfold add_int wrap_int
  simp only [INT_MIN, INT_MAX]
  split_ifs with h
  · omega
  · omega

theorem add_int_one (a : Int) (h : a ≠ 2147483647) : add_int a 1 = a + 1 := by
  unfold add_int wrap_int
  simp only [INT_MIN, INT_MAX]
  split_ifs <;> omega

theorem add_int_neg_one (a : Int) (h : a ≠ -2147483648) : add_int a (-1) = a - 1 := by
  unfold add_int wrap_int
  simp only [INT_MIN, INT_MAX]
  split_ifs <;> omega

theorem add_int_in_range (a b : Int) (ha : INT_MIN ≤ a ∧ a ≤ INT_MAX)
    (hb : INT_MIN ≤ b ∧ b ≤ INT_MAX) :
    add_int a b = wrap_int (a + b) ∧ INT_MIN ≤ add_int a b ∧ add_int a b ≤ INT_MAX := by
  unfold add_int
  rw [if_pos ⟨ha, hb⟩]
  unfold wrap_int
  simp only [INT_MIN, INT_MAX] at ha hb ⊢
  refine ⟨trivial, ?_, ?_⟩ <;> omega

theorem add_add_int_exact (a d : Int) (j : Nat) (hj : j < 4)
    (ha : -1000000000 ≤ a ∧ a ≤ 1000000000) (hd : -1000000000 ≤ d ∧ d ≤ 1000000000) :
    add_int (add_int a (j : Int)) d = a + (j : Int) + d := by
  rw [add_int_exact a (j : Int) (by simp only [INT_MIN, INT_MAX]; omega),
    add_int_exact _ d (by simp only [INT_MIN, INT_MAX]; omega)]

theorem mem_cells4x4 (i j : Fin 4) : (i, j) ∈ cells4x4 := by
  revert i j
  decide

theorem readCell_eq_some_iff (b : Board) (r c v : Int) :
    readCell b r c = some v ↔
      ∃ h : 0 ≤ r ∧ r < 20 ∧ 0 ≤ c ∧ c < 10,
        b ⟨r.toNat, by omega⟩ ⟨c.toNat, by omega⟩ = v := by
  unfold readCell
  split
  · rename_i h
    simp [h]
  · rename_i h
    simp [h]

theorem readCell_of_range (b : Board) (r c : Int) (h : 0 ≤ r ∧ r < 20 ∧ 0 ≤ c ∧ c < 10) :
    readCell b r c = some (b ⟨r.toNat, by omega⟩ ⟨c.toNat, by omega⟩) := by
  unfold readCell
  rw [dif_pos h]

/-! ## `check_collision` -/

theorem check_collision_from_total (game : GameState) (piece : Piece) (dx dy : Int)
    (l : List (Fin 4 × Fin 4)) :
    ∃ r, check_collision_from game piece dx dy l = some r := by
  induction l with
  | nil => exact ⟨false, rfl⟩
  | cons ij rest ih =>
    obtain ⟨i, j⟩ := ij
    simp only [check_collision_from, BOARD_WIDTH, BOARD_HEIGHT]
    split_ifs with h1 h2 h3 h4
    · exact ⟨true, rfl⟩
    · exact ⟨true, rfl⟩
    · obtain ⟨v, hv⟩ : ∃ v, readCell game.board (add_int (add_int piece.y (i.val : Int)) dy)
          (add_int (add_int piece.x (j.val : Int)) dx) = some v :=
        ⟨_, readCell_of_range _ _ _ (by omega)⟩
      rw [hv]
      by_cases h5 : v = 0
      · simpa [h5] using ih
      · exact ⟨true, by simp [h5]⟩
    · exact ih
    · exact ih

theorem check_collision_from_false_iff (game : GameState) (piece : Piece) (dx dy : Int)
    (l : List (Fin 4 × Fin 4)) :
    check_collision_from game piece dx dy l = some false ↔
      ∀ i j, (i, j) ∈ l → piece.shape i j ≠ 0 → cellFree game piece dx dy i j := by
  induction l with
  | nil => simp [check_collision_from]
  | cons ij rest ih =>
    obtain ⟨i, j⟩ := ij
    have key : check_collision_from game piece dx dy ((i, j) :: rest) = some false ↔
        (piece.shape i j ≠ 0 → cellFree game piece dx dy i j) ∧
        check_collision_from game piece dx dy rest = some false := by
      simp only [check_collision_from, BOARD_WIDTH, BOARD_HEIGHT, cellFree]
      split_ifs with h1 h2 h3 h4
      · refine iff_of_false (by simp) (fun h => ?_)
        have := h.1 h1
        omega
      · refine iff_of_false (by simp) (fun h => ?_)
        have := h.1 h1
        omega
      · obtain ⟨v, hv⟩ : ∃ v,
            readCell game.board (add_int (add_int piece.y (i.val : Int)) dy)
              (add_int (add_int piece.x (j.val : Int)) dx) = some v :=
          ⟨_, readCell_of_range _ _ _ (by omega)⟩
        rw [hv]
        by_cases h5 : v = 0
        · subst h5
          simp only [ne_eq, not_true_eq_false, if_false]
          constructor
          · intro h
            exact ⟨fun _ => ⟨by omega, by omega, by omega, fun _ => trivial⟩, h⟩
          · exact fun h => h.2
        · simp only [ne_eq, h5, not_false_eq_true, if_true]
          refine iff_of_false (by simp) (fun h => ?_)
          have := (h.1 h1).2.2.2 (by omega)
          simp [h5] at this
      · constructor
        · intro h
          exact ⟨fun _ => ⟨by omega, by omega, by omega, fun h0 => absurd h0 (by omega)⟩, h⟩
        · exact fun h => h.2
      · simp only [ne_eq, not_not] at h1
        simp [h1]
    rw [key, ih]
    constructor
    · rintro ⟨h1, h2⟩ i' j' hmem hs
      rcases List.mem_cons.mp hmem with heq | hmem
      · cases heq
        exact h1 hs
      · exact h2 i' j' hmem hs
    · intro h
      exact ⟨fun hs => h i j (List.mem_cons_self _ _) hs,
        fun i' j' hmem hs => h i' j' (List.mem_cons_of_mem _ hmem) hs⟩

theorem check_collision_total (game : GameState) (piece : Piece) (dx dy : Int) :
    ∃ r, check_collision game piece dx dy = some r :=
  check_collision_from_total game piece dx dy cells4x4

theorem check_collision_false_iff_free (game : GameState) (piece : Piece) (dx dy : Int) :
    check_collision game piece dx dy = some false ↔
      ∀ i j, piece.shape i j ≠ 0 → cellFree game piece dx dy i j := by
  unfold check_collision
  rw [check_collision_from_false_iff]
  exact ⟨fun h i j => h i j (mem_cells4x4 i j), fun h i j _ => h i j⟩

theorem check_collision_true_iff_not_free (game : GameState) (piece : Piece) (dx dy : Int) :
    check_collision game piece dx dy = some true ↔
      ¬ ∀ i j, piece.shape i j ≠ 0 → cellFree game piece dx dy i j := by
  rw [← check_collision_false_iff_free]
  obtain ⟨r, hr⟩ := check_collision_total game piece dx dy
  rw [hr]
  cases r <;> simp

/-- C1 as stated fails at positions whose sums overflow the 32-bit `int`.  On the
empty board of `wallGame`, a vertical I piece at `x = 2147483647` tested at
offset `dx = 2147483647` has every occupied cell in shape column 2, and the
code computes its column `x + 2 + dx` as 0: `check_collision` returns false
although the exact sum 4294967296 is not below 10.  At offset `(0, 0)`, a
horizontal I piece in shape row 2 at `y = 2147483646` gets the row
`-2147483648`, which is exempt from every test: `check_collision` returns false
although the cell is neither inside the board nor above row 0. -/
theorem check_collision_counterexample :
    (check_collision wallGame farPiece 2147483647 0 = some false ∧
      ¬ ∀ i j : Fin 4, farPiece.shape i j ≠ 0 →
        0 ≤ farPiece.x + (j.val : Int) + 2147483647 ∧
        farPiece.x + (j.val : Int) + 2147483647 < 10 ∧
        farPiece.y + (i.val : Int) + 0 < 20 ∧
        (0 ≤ farPiece.y + (i.val : Int) + 0 →
          readCell wallGame.board (farPiece.y + (i.val : Int) + 0)
            (farPiece.x + (j.val : Int) + 2147483647) = some 0)) ∧
    (check_collision wallGame lowPiece 0 0 = some false ∧
      ¬ ∀ i j : Fin 4, lowPiece.shape i j ≠ 0 →
        (0 ≤ lowPiece.x + (j.val : Int) ∧ lowPiece.x + (j.val : Int) < 10) ∧
        ((0 ≤ lowPiece.y + (i.val : Int) ∧ lowPiece.y + (i.val : Int) < 20) ∨
          lowPiece.y + (i.val : Int) < 0) ∧
        (0 ≤ lowPiece.y + (i.val : Int) →
          readCell wallGame.board (lowPiece.y + (i.val : Int))
            (lowPiece.x + (j.val : Int)) = some 0)) := by
  decide

/-- C1, amended: `check_collision` always returns, and it returns false exactly
when every occupied shape cell `(i, j)` satisfies `0 <= X < 10`, `Y < 20` and,
whenever `Y >= 0`, `board[Y][X]` is empty, where `X` and `Y` are the sums
`x+j+dx` and `y+i+dy` as the code computes them in 32-bit `int` arithmetic; it
returns true in every other case.  When `x`, `y`, `dx` and `dy` lie between
`-1000000000` and `1000000000` these are the exact sums and the statement holds
for `x+j+dx` and `y+i+dy` themselves; in particular, for such `x` and `y`, when
it returns false at offset `(0, 0)` every occupied cell is inside the
horizontal bounds and either inside the board or above row 0, and every
occupied cell with row `>= 0` is empty on the board. -/
theorem check_collision_spec (game : GameState) (piece : Piece) (dx dy : Int) :
    (check_collision game piece dx dy = some false ↔
      ∀ i j : Fin 4, piece.shape i j ≠ 0 →
        0 ≤ add_int (add_int piece.x (j.val : Int)) dx ∧
        add_int (add_int piece.x (j.val : Int)) dx < 10 ∧
        add_int (add_int piece.y (i.val : Int)) dy < 20 ∧
        (0 ≤ add_int (add_int piece.y (i.val : Int)) dy →
          readCell game.board (add_int (add_int piece.y (i.val : Int)) dy)
            (add_int (add_int piece.x (j.val : Int)) dx) = some 0)) ∧
    (check_collision game piece dx dy = some true ↔
      ¬ ∀ i j : Fin 4, piece.shape i j ≠ 0 →
        0 ≤ add_int (add_int piece.x (j.val : Int)) dx ∧
        add_int (add_int piece.x (j.val : Int)) dx < 10 ∧
        add_int (add_int piece.y (i.val : Int)) dy < 20 ∧
        (0 ≤ add_int (add_int piece.y (i.val : Int)) dy →
          readCell game.board (add_int (add_int piece.y (i.val : Int)) dy)
            (add_int (add_int piece.x (j.val : Int)) dx) = some 0)) ∧
    ((-1000000000 ≤ piece.x ∧ piece.x ≤ 1000000000) →
      (-1000000000 ≤ piece.y ∧ piece.y ≤ 1000000000) →
      (-1000000000 ≤ dx ∧ dx ≤ 1000000000) → (-1000000000 ≤ dy ∧ dy ≤ 1000000000) →
      (check_collision game piece dx dy = some false ↔
        ∀ i j : Fin 4, piece.shape i j ≠ 0 →
          0 ≤ piece.x + (j.val : Int) + dx ∧ piece.x + (j.val : Int) + dx < 10 ∧
          piece.y + (i.val : Int) + dy < 20 ∧
          (0 ≤ piece.y + (i.val : Int) + dy →
            readCell game.board (piece.y + (i.val : Int) + dy)
              (piece.x + (j.val : Int) + dx) = some 0))) ∧
    ((-1000000000 ≤ piece.x ∧ piece.x ≤ 1000000000) →
      (-1000000000 ≤ piece.y ∧ piece.y ≤ 1000000000) →
      check_collision game piece 0 0 = some false →
      ∀ i j : Fin 4, piece.shape i j ≠ 0 →
        (0 ≤ piece.x + (j.val : Int) ∧ piece.x + (j.val : Int) < 10) ∧
        ((0 ≤ piece.y + (i.val : Int) ∧ piece.y + (i.val : Int) < 20) ∨
          piece.y + (i.val : Int) < 0) ∧
        (0 ≤ piece.y + (i.val : Int) →
          readCell game.board (piece.y + (i.val : Int)) (piece.x + (j.val : Int)) = some 0)) := by
  refine ⟨check_collision_false_iff_free game piece dx dy,
    check_collision_true_iff_not_free game piece dx dy, ?_, ?_⟩
  · intro hx hy hdx hdy
    rw [check_collision_false_iff_free]
    have e : ∀ i j : Fin 4, cellFree game piece dx dy i j ↔
        (0 ≤ piece.x + (j.val : Int) + dx ∧ piece.x + (j.val : Int) + dx < 10 ∧
          piece.y + (i.val : Int) + dy < 20 ∧
          (0 ≤ piece.y + (i.val : Int) + dy →
            readCell game.board (piece.y + (i.val : Int) + dy)
              (piece.x + (j.val : Int) + dx) = some 0)) := by
      intro i j
      simp only [cellFree, add_add_int_exact piece.x dx j.val j.isLt hx hdx,
        add_add_int_exact piece.y dy i.val i.isLt hy hdy]
    exact ⟨fun h i j hs => (e i j).mp (h i j hs), fun h i j hs => (e i j).mpr (h i j hs)⟩
  · intro hx hy h i j hs
    have hf := (check_collision_false_iff_free game piece 0 0).mp h i j hs
    simp only [cellFree, add_add_int_exact piece.x 0 j.val j.isLt hx (by omega),
      add_add_int_exact piece.y 0 i.val i.isLt hy (by omega), add_zero] at hf
    refine ⟨⟨hf.1, hf.2.1⟩, ?_, hf.2.2.2⟩
    by_cases h0 : 0 ≤ piece.y + (i.val : Int)
    · exact Or.inl ⟨h0, hf.2.2.1⟩
    · exact Or.inr (by omega)

/-- C1, concrete cases on the board of `toppedState` (only row 3, columns 4 and 5
occupied): the O piece at `(3, 0)` is free in place and blocked one row down; a
piece protruding above row 0 is free there; a piece past the left wall or below
the bottom row collides even above or beside empty cells. -/
theorem check_collision_spec_witness :
    check_collision (toppedState 0 0).game (toppedState 0 0).game.current 0 0 = some false ∧
    check_collision (toppedState 0 0).game (toppedState 0 0).game.current 0 1 = some true ∧
    check_collision (toppedState 0 0).game
      { shape := SHAPES 1, x := 3, y := -2, type := 1 } 0 0 = some false ∧
    check_collision (toppedState 0 0).game
      { shape := SHAPES 1, x := -2, y := -7, type := 1 } 0 0 = some true ∧
    check_collision (toppedState 0 0).game
      { shape := SHAPES 1, x := 0, y := 17, type := 1 } 0 1 = some true ∧
    check_collision (toppedState 0 0).game
      { shape := SHAPES 1, x := 0, y := 17, type := 1 } (-1) 0 = some false := by
  decide

/-! ## `init_piece` -/

/-- C8: for every type `t` in `0..6`, `init_piece` produces a piece of type `t` at
position `(BOARD_WIDTH / 2 - 2, 0) = (3, 0)` whose shape equals `SHAPES[t]` cell
for cell; for type 0 this is the I template: exactly the four cells of row 1. -/
theorem init_piece_spec :
    (∀ t : Fin 7, ∃ p : Piece, init_piece (t.val : Int) = some p ∧
      p.type = (t.val : Int) ∧ p.x = BOARD_WIDTH / 2 - 2 ∧ p.x = 3 ∧ p.y = 0 ∧
      ∀ i j : Fin 4, p.shape i j = SHAPES t i j) ∧
    (∃ p : Piece, init_piece 0 = some p ∧ p.type = 0 ∧ p.x = 3 ∧ p.y = 0 ∧
      ∀ i j : Fin 4, (p.shape i j ≠ 0 ↔ i = 1)) := by
  constructor
  · intro t
    have ht : 0 ≤ (t.val : Int) ∧ (t.val : Int) < 7 := by omega
    simp only [init_piece, readShape, dif_pos ht]
    refine ⟨_, rfl, rfl, rfl, ?_, rfl, ?_⟩
    · show (BOARD_WIDTH / 2 - 2 : Int) = 3
      decide
    intro i j
    show SHAPES ⟨((t.val : Int)).toNat, _⟩ i j = SHAPES t i j
    congr 2
  · have ht : 0 ≤ (0 : Int) ∧ (0 : Int) < 7 := by omega
    simp only [init_piece, readShape, dif_pos ht]
    refine ⟨_, rfl, rfl, ?_, rfl, ?_⟩
    · show (BOARD_WIDTH / 2 - 2 : Int) = 3
      decide
    · intro i j
      show SHAPES 0 i j ≠ 0 ↔ i = 1
      revert i j
      decide

/-! ## `merge_piece` -/

theorem writeCell_of_range (b : Board) (r c v : Int) (h : 0 ≤ r ∧ r < 20 ∧ 0 ≤ c ∧ c < 10) :
    writeCell b r c v = some (fun r' c' =>
      if r' = ⟨r.toNat, by omega⟩ ∧ c' = ⟨c.toNat, by omega⟩ then v else b r' c') := by
  unfold writeCell
  rw [dif_pos h]

theorem merge_piece_from_eq (piece : Piece) (l : List (Fin 4 × Fin 4)) :
    ∀ game : GameState, game.current = piece →
      merge_piece_from game l = some { game with board := mergedBoard piece game.board l } := by
  induction l with
  | nil =>
    intro game _
    cases game
    simp only [merge_piece_from, Option.some.injEq, GameState.mk.injEq, and_true, true_and]
    funext r c
    simp [mergedBoard]
  | cons ij rest ih =>
    obtain ⟨i, j⟩ := ij
    intro game hp
    simp only [merge_piece_from, BOARD_WIDTH, BOARD_HEIGHT, hp]
    split_ifs with h1 h2
    · rw [writeCell_of_range _ _ _ _ (by omega)]
      simp only
      rw [ih _ rfl]
      simp only [Option.some.injEq]
      congr 1
      funext r c
      simp only [mergedBoard, List.mem_cons, exists_eq_or_imp]
      by_cases hrc : piece.y + (i.val : Int) = (r.val : Int) ∧
          piece.x + (j.val : Int) = (c.val : Int)
      · simp [h1, hrc]
      · have hne : ¬ (r = ⟨(piece.y + (i.val : Int)).toNat, by omega⟩ ∧
            c = ⟨(piece.x + (j.val : Int)).toNat, by omega⟩) := by
          rintro ⟨hr, hc⟩
          apply hrc
          have hr' := congrArg Fin.val hr
          have hc' := congrArg Fin.val hc
          simp only at hr' hc'
          omega
        simp only [hne, if_false]
        have : ¬ (piece.shape i j ≠ 0 ∧ piece.y + (i.val : Int) = (r.val : Int) ∧
            piece.x + (j.val : Int) = (c.val : Int)) := fun h => hrc h.2
        simp only [this, false_or]
    · rw [ih _ hp]
      simp only [Option.some.injEq]
      congr 1
      funext r c
      simp only [mergedBoard, List.mem_cons, exists_eq_or_imp]
      have : ¬ (piece.shape i j ≠ 0 ∧ piece.y + (i.val : Int) = (r.val : Int) ∧
          piece.x + (j.val : Int) = (c.val : Int)) := by
        rintro ⟨_, hr, hc⟩
        apply h2
        have := r.isLt
        have := c.isLt
        omega
      simp only [this, false_or]
    · rw [ih _ hp]
      simp only [Option.some.injEq]
      congr 1
      funext r c
      simp only [mergedBoard, List.mem_cons, exists_eq_or_imp]
      have : ¬ (piece.shape i j ≠ 0 ∧ piece.y + (i.val : Int) = (r.val : Int) ∧
          piece.x + (j.val : Int) = (c.val : Int)) := fun h => h1 h.1
      simp only [this, false_or]

/-- C7: `merge_piece` always returns; it sets `board[y+i][x+j]` to `type + 1` for
every occupied shape cell `(i, j)` whose position lies inside the 20x10 board,
leaves every other board cell unchanged, and leaves the active piece, the score,
the high score and all other fields unchanged.  Occupied cells outside the board
cause no write (the result is never an out-of-range access).  The property
needs no assumption on the piece type. -/
theorem merge_piece_spec (game : GameState) :
    ∃ game' : GameState, merge_piece game = some game' ∧
      game'.current = game.current ∧ game'.score = game.score ∧
      game'.high_score = game.high_score ∧ game'.game_over = game.game_over ∧
      game'.game_started = game.game_started ∧
      game'.last_fall_time = game.last_fall_time ∧ game'.fall_speed = game.fall_speed ∧
      ∀ (r : Fin 20) (c : Fin 10),
        ((∃ i j : Fin 4, game.current.shape i j ≠ 0 ∧
            game.current.y + (i.val : Int) = (r.val : Int) ∧
            game.current.x + (j.val : Int) = (c.val : Int)) →
          game'.board r c = game.current.type + 1) ∧
        ((¬ ∃ i j : Fin 4, game.current.shape i j ≠ 0 ∧
            game.current.y + (i.val : Int) = (r.val : Int) ∧
            game.current.x + (j.val : Int) = (c.val : Int)) →
          game'.board r c = game.board r c) := by
  refine ⟨_, merge_piece_from_eq game.current cells4x4 game rfl,
    rfl, rfl, rfl, rfl, rfl, rfl, rfl, ?_⟩
  intro r c
  have hiff : (∃ ij ∈ cells4x4, game.current.shape ij.1 ij.2 ≠ 0 ∧
        game.current.y + (ij.1.val : Int) = (r.val : Int) ∧
        game.current.x + (ij.2.val : Int) = (c.val : Int)) ↔
      ∃ i j : Fin 4, game.current.shape i j ≠ 0 ∧
        game.current.y + (i.val : Int) = (r.val : Int) ∧
        game.current.x + (j.val : Int) = (c.val : Int) := by
    constructor
    · rintro ⟨⟨i, j⟩, _, h⟩
      exact ⟨i, j, h⟩
    · rintro ⟨i, j, h⟩
      exact ⟨(i, j), mem_cells4x4 i j, h⟩
  constructor
  · intro h
    show mergedBoard game.current game.board cells4x4 r c = _
    simp only [mergedBoard, if_pos (hiff.mpr h)]
  · intro h
    show mergedBoard game.current game.board cells4x4 r c = _
    simp only [mergedBoard, if_neg (fun h' => h (hiff.mp h'))]

/-- C7, concrete case: merging the O piece of `toppedState` writes the value 2 into
rows 1 and 2 of columns 4 and 5 and changes no other cell. -/
theorem merge_piece_spec_witness :
    ∀ (r : Fin 20) (c : Fin 10),
      (merge_piece (toppedState 0 0).game).map (fun g => g.board r c)
        = some (if (r.val = 1 ∨ r.val = 2) ∧ (c.val = 4 ∨ c.val = 5) then 2
                else (toppedState 0 0).game.board r c) := by
  decide

/-! ## `clear_lines`: the inner loops -/

theorem mem_columns (c : Fin 10) : (c.val : Int) ∈ columns := by
  revert c
  decide

theorem columns_range : ∀ j ∈ columns, (0 : Int) ≤ j ∧ j < 10 := by
  decide

theorem row_full_from_eq (b : Board) (r : Fin 20) (l : List Int)
    (hl : ∀ j ∈ l, (0 : Int) ≤ j ∧ j < 10) :
    row_full_from b (r.val : Int) l
      = some (decide (∀ c : Fin 10, (c.val : Int) ∈ l → b r c ≠ 0)) := by
  induction l with
  | nil => simp [row_full_from]
  | cons j rest ih =>
    have hj := hl j (List.mem_cons_self _ _)
    have hrest := ih (fun j' hj' => hl j' (List.mem_cons_of_mem _ hj'))
    have hr := r.isLt
    simp only [row_full_from]
    rw [readCell_of_range _ _ _ (by omega)]
    simp only
    have hfin : (⟨((r.val : Int)).toNat, by omega⟩ : Fin 20) = r := Fin.ext (by simp)
    rw [hfin, hrest]
    by_cases h0 : b r ⟨j.toNat, by omega⟩ = 0
    · simp only [h0, if_true, Option.some.injEq]
      symm
      rw [decide_eq_false_iff_not]
      intro h
      exact h ⟨j.toNat, by omega⟩ (by simp [Int.toNat_of_nonneg hj.1]) h0
    · simp only [h0, if_false, Option.some.injEq, decide_eq_decide]
      constructor
      · intro h c hc
        rcases List.mem_cons.mp hc with heq | hmem
        · have : c = ⟨j.toNat, by omega⟩ := Fin.ext (by simp only; omega)
          rw [this]
          exact h0
        · exact h c hmem
      · intro h c hc
        exact h c (List.mem_cons_of_mem _ hc)

theorem row_full_columns (b : Board) (r : Fin 20) :
    row_full_from b (r.val : Int) columns = some (rowFull (b r)) := by
  rw [row_full_from_eq b r columns columns_range]
  simp only [rowFull, Option.some.injEq, decide_eq_decide]
  exact ⟨fun h c => h c (mem_columns c), fun h c _ => h c⟩

theorem copy_row_from_eq (k : Nat) (hk : 1 ≤ k ∧ k < 20) (l : List Int)
    (hl : ∀ j ∈ l, (0 : Int) ≤ j ∧ j < 10) :
    ∀ b : Board, copy_row_from b (k : Int) l = some (fun r c =>
      if r.val = k ∧ (c.val : Int) ∈ l then b ⟨k - 1, by omega⟩ c else b r c) := by
  induction l with
  | nil =>
    intro b
    simp [copy_row_from]
  | cons j rest ih =>
    intro b
    have hj := hl j (List.mem_cons_self _ _)
    have hrest := ih (fun j' hj' => hl j' (List.mem_cons_of_mem _ hj'))
    simp only [copy_row_from]
    rw [readCell_of_range _ _ _ (by omega)]
    simp only
    rw [writeCell_of_range _ _ _ _ (by omega)]
    simp only
    rw [hrest]
    simp only [Option.some.injEq]
    funext r c
    have hk1 : ((k : Int) - 1).toNat = k - 1 := by omega
    have hfin : (⟨((k : Int) - 1).toNat, by omega⟩ : Fin 20) = ⟨k - 1, by omega⟩ :=
      Fin.ext hk1
    have hne : ¬ ((⟨k - 1, by omega⟩ : Fin 20) = ⟨((k : Int)).toNat, by omega⟩ ∧
        c = ⟨j.toNat, by omega⟩) := by
      rintro ⟨h, _⟩
      have := congrArg Fin.val h
      simp only at this
      omega
    simp only [hfin, hne, if_false, List.mem_cons]
    by_cases hr : r.val = k
    · by_cases hc : (c.val : Int) = j
      · have h1 : r = ⟨((k : Int)).toNat, by omega⟩ ∧ c = ⟨j.toNat, by omega⟩ :=
          ⟨Fin.ext (by simp only; omega), Fin.ext (by simp only; omega)⟩
        simp only [hr, hc, true_or, and_self, if_true]
        by_cases hm : j ∈ rest
        · simp only [hm, and_self, if_true]
        · simp only [hm, and_false, if_false]
          rw [if_pos ⟨Fin.ext (by simp only; omega), h1.2⟩]
          have : c = ⟨j.toNat, by omega⟩ := h1.2
          rw [this]
      · have h1 : ¬ (r = ⟨((k : Int)).toNat, by omega⟩ ∧ c = ⟨j.toNat, by omega⟩) := by
          rintro ⟨_, h⟩
          apply hc
          have := congrArg Fin.val h
          simp only at this
          omega
        simp only [hr, hc, false_or, true_and, h1, if_false]
    · have h1 : ¬ (r = ⟨((k : Int)).toNat, by omega⟩ ∧ c = ⟨j.toNat, by omega⟩) := by
        rintro ⟨h, _⟩
        apply hr
        have := congrArg Fin.val h
        simp only at this
        omega
      simp only [hr, false_and, if_false, h1]

theorem copy_row_columns (k : Nat) (hk : 1 ≤ k ∧ k < 20) (b : Board) :
    copy_row_from b (k : Int) columns = some (fun r c =>
      if r.val = k then b ⟨k - 1, by omega⟩ c else b r c) := by
  rw [copy_row_from_eq k hk columns columns_range b]
  simp only [mem_columns, and_true]

theorem shift_rows_from_eq (n : Nat) (hn : n < 20) :
    ∀ b : Board, shift_rows_from b n = some (fun r c =>
      if h : 1 ≤ r.val ∧ r.val ≤ n then b ⟨r.val - 1, by omega⟩ c else b r c) := by
  induction n with
  | zero =>
    intro b
    simp only [shift_rows_from, Option.some.injEq]
    funext r c
    have : ¬ (1 ≤ r.val ∧ r.val ≤ 0) := by omega
    rw [dif_neg this]
  | succ k ih =>
    intro b
    simp only [shift_rows_from]
    have hc := copy_row_columns (k + 1) (by omega) b
    simp only [Nat.cast_add, Nat.cast_one] at hc
    rw [hc]
    simp only
    rw [ih (by omega)]
    simp only [Option.some.injEq]
    funext r c
    by_cases h1 : 1 ≤ r.val ∧ r.val ≤ k
    · have h2 : 1 ≤ r.val ∧ r.val ≤ k + 1 := by omega
      have h3 : ¬ (r.val - 1 = k + 1) := by omega
      rw [dif_pos h1, dif_pos h2]
      simp only [h3, if_false]
    · rw [dif_neg h1]
      by_cases h4 : r.val = k + 1
      · have h2 : 1 ≤ r.val ∧ r.val ≤ k + 1 := by omega
        rw [dif_pos h2]
        simp only [h4, if_true, Nat.add_sub_cancel]
      · have h2 : ¬ (1 ≤ r.val ∧ r.val ≤ k + 1) := by omega
        rw [dif_neg h2]
        simp only [h4, if_false]

theorem clear_top_from_eq (l : List Int) (hl : ∀ j ∈ l, (0 : Int) ≤ j ∧ j < 10) :
    ∀ b : Board, clear_top_from b l = some (fun r c =>
      if r.val = 0 ∧ (c.val : Int) ∈ l then 0 else b r c) := by
  induction l with
  | nil =>
    intro b
    simp [clear_top_from]
  | cons j rest ih =>
    intro b
    have hj := hl j (List.mem_cons_self _ _)
    have hrest := ih (fun j' hj' => hl j' (List.mem_cons_of_mem _ hj'))
    simp only [clear_top_from]
    rw [writeCell_of_range _ _ _ _ (by omega)]
    simp only
    rw [hrest]
    simp only [Option.some.injEq]
    funext r c
    simp only [List.mem_cons]
    by_cases hr : r.val = 0
    · by_cases hc : (c.val : Int) = j
      · have h1 : r = ⟨((0 : Int)).toNat, by omega⟩ ∧ c = ⟨j.toNat, by omega⟩ :=
          ⟨Fin.ext (by simp only; omega), Fin.ext (by simp only; omega)⟩
        simp only [hr, hc, true_or, and_self, if_true]
        by_cases hm : j ∈ rest
        · simp only [hm, and_self, if_true]
        · simp only [hm, and_false, if_false]
          rw [if_pos h1]
      · have h1 : ¬ (r = ⟨((0 : Int)).toNat, by omega⟩ ∧ c = ⟨j.toNat, by omega⟩) := by
          rintro ⟨_, h⟩
          apply hc
          have := congrArg Fin.val h
          simp only at this
          omega
        simp only [hr, hc, false_or, true_and, h1, if_false]
    · have h1 : ¬ (r = ⟨((0 : Int)).toNat, by omega⟩ ∧ c = ⟨j.toNat, by omega⟩) := by
        rintro ⟨h, _⟩
        apply hr
        have := congrArg Fin.val h
        simpa using this
      simp only [hr, false_and, if_false, h1]

theorem clear_top_columns (b : Board) :
    clear_top_from b columns = some (fun r c => if r.val = 0 then 0 else b r c) := by
  rw [clear_top_from_eq columns columns_range b]
  simp only [mem_columns, and_true]

/-! ## `clear_lines`: the row scan -/

theorem remove_row_eq (b : Board) (i : Nat) (hi : i < 20) :
    ∃ b1, shift_rows_from b i = some b1 ∧ clear_top_from b1 columns = some (removeRow b i) := by
  refine ⟨_, shift_rows_from_eq i hi b, ?_⟩
  rw [clear_top_columns]
  simp only [Option.some.injEq]
  funext r c
  unfold removeRow
  by_cases h0 : r.val = 0
  · simp only [h0, if_true]
  · simp only [h0, if_false]
    by_cases h1 : r.val ≤ i
    · rw [dif_pos h1, dif_pos ⟨by omega, h1⟩]
    · rw [dif_neg h1, dif_neg (fun h => h1 h.2)]

theorem clear_lines_loop_neg (fuel : Nat) (b : Board) (i lines : Int) (hi : i < 0) :
    clear_lines_loop (fuel + 1) b i lines = some (b, lines) := by
  simp only [clear_lines_loop]
  rw [if_neg (by omega)]

theorem clear_lines_loop_step (fuel : Nat) (b : Board) (i : Nat) (hi : i < 20) (lines : Int) :
    clear_lines_loop (fuel + 1) b (i : Int) lines =
      if rowFull (b ⟨i, hi⟩) = true then
        clear_lines_loop fuel (removeRow b i) (i : Int) (lines + 1)
      else clear_lines_loop fuel b ((i : Int) - 1) lines := by
  simp only [clear_lines_loop]
  rw [if_pos (by omega)]
  have hrow := row_full_columns b ⟨i, hi⟩
  simp only at hrow
  rw [hrow]
  cases hf : rowFull (b ⟨i, hi⟩)
  · simp
  · obtain ⟨b1, h1, h2⟩ := remove_row_eq b i hi
    simp only [Int.toNat_ofNat, h1, h2, add_sub_cancel_right, if_true]

theorem boardRows_length (b : Board) : (boardRows b).length = 20 := by
  simp only [boardRows, List.length_ofFn]

theorem boardRows_getElem (b : Board) (n : Nat) (h : n < (boardRows b).length) :
    (boardRows b)[n] = b ⟨n, by rw [boardRows_length] at h; exact h⟩ := by
  simp only [boardRows, List.getElem_ofFn]

theorem boardRows_removeRow (b : Board) (k : Nat) (hk : k < 20) :
    boardRows (removeRow b k) = emptyRow :: (boardRows b).eraseIdx k := by
  apply List.ext_getElem
  · simp [boardRows_length, List.length_eraseIdx, hk]
  · intro n h1 h2
    rw [boardRows_getElem _ n h1]
    rw [boardRows_length] at h1
    cases n with
    | zero =>
      funext c
      simp [removeRow, emptyRow]
    | succ m =>
      simp only [List.getElem_cons_succ]
      rw [List.getElem_eraseIdx]
      funext c
      by_cases hm : m < k
      · simp only [hm, dif_pos, removeRow]
        rw [boardRows_getElem]
        simp only [Nat.add_one_ne_zero, if_false, Nat.add_sub_cancel]
        rw [dif_pos (by omega)]
      · simp only [hm, dif_neg, not_false_eq_true, removeRow]
        rw [boardRows_getElem]
        simp only [Nat.add_one_ne_zero, if_false]
        rw [dif_neg (by omega)]

theorem rowFull_emptyRow : rowFull emptyRow = false := by
  decide

theorem clear_lines_loop_rows :
    ∀ (fuel m : Nat) (b : Board) (lines : Int), m ≤ 20 →
      m + ((boardRows b).take m).countP rowFull + 1 ≤ fuel →
      ∃ b' : Board,
        clear_lines_loop fuel b ((m : Int) - 1) lines
          = some (b', lines + (((boardRows b).take m).countP rowFull : Nat)) ∧
        boardRows b' =
          List.replicate (((boardRows b).take m).countP rowFull) emptyRow
            ++ ((boardRows b).take m).filter (fun row => !rowFull row)
            ++ (boardRows b).drop m := by
  intro fuel
  induction fuel with
  | zero =>
    intro m b lines _ hf
    omega
  | succ fuel ih =>
    intro m b lines hm hf
    cases m with
    | zero =>
      refine ⟨b, ?_, ?_⟩
      · rw [clear_lines_loop_neg fuel b _ lines (by simp)]
        simp
      · simp
    | succ k =>
      have hk : k < 20 := by omega
      have hlen : k < (boardRows b).length := by rw [boardRows_length]; exact hk
      have hidx : ((k + 1 : Nat) : Int) - 1 = (k : Int) := by omega
      have htake : (boardRows b).take (k + 1) = (boardRows b).take k ++ [b ⟨k, hk⟩] := by
        rw [← List.take_concat_get _ _ hlen, List.concat_eq_append, boardRows_getElem]
      have hdrop : (boardRows b).drop k = b ⟨k, hk⟩ :: (boardRows b).drop (k + 1) := by
        rw [List.drop_eq_getElem_cons hlen, boardRows_getElem]
      rw [hidx, clear_lines_loop_step fuel b k hk lines]
      rw [htake] at hf ⊢
      cases hfull : rowFull (b ⟨k, hk⟩)
      · -- row `k` is not full: the scan moves up
        simp only [List.countP_append, List.countP_cons, List.countP_nil, hfull,
          Bool.false_eq_true, if_false, Nat.add_zero, List.filter_append, List.filter_cons,
          List.filter_nil, Bool.not_false, if_true] at hf ⊢
        obtain ⟨b', h1, h2⟩ := ih k b lines (by omega) (by omega)
        refine ⟨b', h1, ?_⟩
        rw [h2, hdrop]
        simp
      · -- row `k` is full: it is removed and the same index is examined again
        simp only [List.countP_append, List.countP_cons, List.countP_nil, hfull,
          if_true, Nat.zero_add, List.filter_append, List.filter_cons,
          List.filter_nil, Bool.not_true, Bool.false_eq_true, if_false,
          List.append_nil] at hf ⊢
        have hrows := boardRows_removeRow b k hk
        have htake1 : (boardRows (removeRow b k)).take (k + 1)
            = emptyRow :: (boardRows b).take k := by
          rw [hrows, List.take_succ_cons, List.eraseIdx_eq_take_drop_succ,
            List.take_left' (by simp; omega)]
        have hdrop1 : (boardRows (removeRow b k)).drop (k + 1)
            = (boardRows b).drop (k + 1) := by
          rw [hrows, List.drop_succ_cons, List.eraseIdx_eq_take_drop_succ,
            List.drop_left' (by simp; omega)]
        obtain ⟨b', h1, h2⟩ := ih (k + 1) (removeRow b k) (lines + 1) (by omega) (by
          rw [htake1]
          simp only [List.countP_cons, rowFull_emptyRow, Bool.false_eq_true, if_false,
            Nat.add_zero]
          omega)
        rw [htake1, hdrop1] at h2
        rw [htake1, hidx] at h1
        simp only [List.countP_cons, rowFull_emptyRow, Bool.false_eq_true, if_false,
          Nat.add_zero, List.filter_cons, Bool.not_false, if_true] at h1 h2
        refine ⟨b', ?_, ?_⟩
        · rw [h1]
          simp only [Option.some.injEq, Prod.mk.injEq, true_and]
          push_cast
          ring
        · rw [h2, List.replicate_succ']
          simp

/-- With at least 41 units of fuel `clear_lines_fuel` returns: the count is the
number of full rows, the new rows are that many empty rows followed by the rows
that were not full, and only the board and the score change. -/
theorem clear_lines_fuel_eq (fuel : Nat) (hf : 41 ≤ fuel) (game : GameState) :
    ∃ b' : Board,
      clear_lines_fuel fuel game
        = some ((((boardRows game.board).countP rowFull : Nat) : Int),
            { game with
              board := b'
              score := add_int game.score
                ((((boardRows game.board).countP rowFull : Nat) : Int) * 100) }) ∧
      boardRows b' =
        List.replicate ((boardRows game.board).countP rowFull) emptyRow
          ++ (boardRows game.board).filter (fun row => !rowFull row) := by
  have hle : (boardRows game.board).countP rowFull ≤ 20 := by
    have := List.countP_le_length rowFull (l := boardRows game.board)
    rw [boardRows_length] at this
    exact this
  have htake : (boardRows game.board).take 20 = boardRows game.board :=
    List.take_of_length_le (by rw [boardRows_length])
  have hdrop : (boardRows game.board).drop 20 = [] :=
    List.drop_of_length_le (by rw [boardRows_length])
  obtain ⟨b', h1, h2⟩ := clear_lines_loop_rows fuel 20 game.board 0 (le_refl _) (by
    rw [htake]
    omega)
  rw [htake] at h1 h2
  rw [hdrop, List.append_nil] at h2
  refine ⟨b', ?_, h2⟩
  have hidx : ((20 : Nat) : Int) - 1 = BOARD_HEIGHT - 1 := by decide
  rw [hidx, zero_add] at h1
  simp only [clear_lines_fuel, h1]

/-- Any fuel of at least 41 gives the result of `clear_lines`. -/
theorem clear_lines_fuel_stable (fuel : Nat) (hf : 41 ≤ fuel) (game : GameState) :
    clear_lines_fuel fuel game = clear_lines game := by
  obtain ⟨b1, h1, r1⟩ := clear_lines_fuel_eq fuel hf game
  obtain ⟨b2, h2, r2⟩ := clear_lines_fuel_eq 41 (le_refl _) game
  have hb : b1 = b2 := by
    have : boardRows b1 = boardRows b2 := by rw [r1, r2]
    exact List.ofFn_injective this
  rw [clear_lines, h1, h2, hb]

/-- C2: for every board with exactly `n` full rows, `clear_lines` returns `n`, and
the rows of the resulting board are `n` empty rows followed by the non-full rows
of the input board, unchanged and in their original top-to-bottom order. -/
theorem clear_lines_spec (game : GameState) (n : Nat)
    (hn : (boardRows game.board).countP rowFull = n) :
    ∃ game' : GameState, clear_lines game = some ((n : Int), game') ∧
      boardRows game'.board =
        List.replicate n emptyRow ++ (boardRows game.board).filter (fun row => !rowFull row) := by
  obtain ⟨b', h1, h2⟩ := clear_lines_fuel_eq 41 (le_refl _) game
  rw [hn] at h1 h2
  exact ⟨_, h1, h2⟩

/-- C2, concrete case: on `sampleBoard` exactly rows 2 and 5 are full;
`clear_lines` returns 2, the two top rows become empty, old rows 0 and 1 move
down by two, old rows 3 and 4 by one, and rows 6 to 19 stay in place. -/
theorem clear_lines_spec_witness :
    (∀ r : Fin 20, rowFull (sampleBoard r) = true ↔ (r = 2 ∨ r = 5)) ∧
    (boardRows sampleGame.board).countP rowFull = 2 ∧
    ∃ game' : GameState, clear_lines sampleGame = some (2, game') ∧
      boardRows game'.board =
        [emptyRow, emptyRow, sampleBoard 0, sampleBoard 1, sampleBoard 3, sampleBoard 4,
          sampleBoard 6, sampleBoard 7, sampleBoard 8, sampleBoard 9, sampleBoard 10,
          sampleBoard 11, sampleBoard 12, sampleBoard 13, sampleBoard 14, sampleBoard 15,
          sampleBoard 16, sampleBoard 17, sampleBoard 18, sampleBoard 19] := by
  refine ⟨by decide, by decide, ?_⟩
  obtain ⟨game', h1, h2⟩ := clear_lines_spec sampleGame 2 (by decide)
  refine ⟨game', h1, ?_⟩
  rw [h2]
  rfl

/-- C9: for every board without a full row, `clear_lines` returns 0 and leaves
the whole state, in particular every board cell and the score, unchanged. -/
theorem clear_lines_no_full_row (game : GameState)
    (h : ∀ r : Fin 20, rowFull (game.board r) = false) :
    clear_lines game = some (0, game) := by
  have hcount : (boardRows game.board).countP rowFull = 0 := by
    rw [List.countP_eq_zero]
    intro row hrow
    simp only [boardRows, List.mem_ofFn, Set.mem_range] at hrow
    obtain ⟨r, rfl⟩ := hrow
    simp [h r]
  have hfilter : (boardRows game.board).filter (fun row => !rowFull row)
      = boardRows game.board := by
    rw [List.filter_eq_self]
    intro row hrow
    simp only [boardRows, List.mem_ofFn, Set.mem_range] at hrow
    obtain ⟨r, rfl⟩ := hrow
    simp [h r]
  obtain ⟨b', h1, h2⟩ := clear_lines_fuel_eq 41 (le_refl _) game
  rw [hcount] at h1 h2
  rw [hfilter] at h2
  have hb : b' = game.board := List.ofFn_injective h2
  rw [clear_lines, h1, hb]
  simp [add_int_zero]

/-- C9, concrete case: `partialGame` has no full row and `clear_lines` returns 0
without changing it. -/
theorem clear_lines_no_full_row_witness :
    (∀ r : Fin 20, rowFull (partialGame.board r) = false) ∧
    clear_lines partialGame = some (0, partialGame) :=
  ⟨by decide, clear_lines_no_full_row partialGame (by decide)⟩

/-- The effect of `clear_lines` on the fields of the state other than the board. -/
theorem clear_lines_frame (game : GameState) :
    ∃ (n : Int) (game' : GameState), clear_lines game = some (n, game') ∧
      n = (((boardRows game.board).countP rowFull : Nat) : Int) ∧ 0 ≤ n ∧ n ≤ 20 ∧
      game'.score = add_int game.score (n * 100) ∧
      game'.current = game.current ∧ game'.high_score = game.high_score ∧
      game'.game_over = game.game_over ∧ game'.game_started = game.game_started ∧
      game'.last_fall_time = game.last_fall_time ∧ game'.fall_speed = game.fall_speed := by
  obtain ⟨b', h1, _⟩ := clear_lines_fuel_eq 41 (le_refl _) game
  have hle : (boardRows game.board).countP rowFull ≤ 20 := by
    have := List.countP_le_length rowFull (l := boardRows game.board)
    rw [boardRows_length] at this
    exact this
  exact ⟨_, _, h1, rfl, by omega, by omega, rfl, rfl, rfl, rfl, rfl, rfl, rfl⟩

/-- The 32-bit sum of a score and the points of at most 20 lines: exact unless
it exceeds `INT_MAX`, and then `2^32` too small. -/
theorem add_int_points (a n : Int) (hn : 0 ≤ n ∧ n ≤ 20) :
    (a + 100 * n ≤ 2147483647 → add_int a (n * 100) = a + 100 * n) ∧
    ((-2147483648 ≤ a ∧ a ≤ 2147483647) → 2147483647 < a + 100 * n →
      add_int a (n * 100) = a + 100 * n - 4294967296) := by
  unfold add_int wrap_int
  simp only [INT_MIN, INT_MAX]
  constructor
  · intro h
    split_ifs <;> omega
  · intro ha h
    split_ifs <;> omega

/-- C10 as stated fails when the addition overflows the 32-bit `int` score: on
`overflowGame` (score 2147483600, one full row) `clear_lines` returns 1 and
leaves the score `-2147483596`, not `2147483600 + 100`. -/
theorem clear_lines_score_counterexample :
    overflowGame.score = 2147483600 ∧
    (clear_lines overflowGame).map (fun r => (r.1, r.2.score)) = some (1, -2147483596) ∧
    (-2147483596 : Int) ≠ 2147483600 + 100 * 1 := by
  decide

/-- C10, amended: `clear_lines` always returns; the new score is the 32-bit sum
of the old score and `100 * n`, where `n` is the count it returns (the number
of full rows, between 0 and 20, with no multiplier for several lines): it is
exactly `score + 100 * n` whenever that does not exceed `INT_MAX = 2147483647`,
and `score + 100 * n - 2^32` when an `int` score would exceed it.  Besides the
board and the score it changes nothing: the active piece, the high score, the
phase flags and the timer fields are unchanged. -/
theorem clear_lines_score (game : GameState) :
    ∃ (n : Int) (game' : GameState), clear_lines game = some (n, game') ∧
      n = (((boardRows game.board).countP rowFull : Nat) : Int) ∧ 0 ≤ n ∧ n ≤ 20 ∧
      game'.score = add_int game.score (n * 100) ∧
      (game.score + 100 * n ≤ 2147483647 → game'.score = game.score + 100 * n) ∧
      ((-2147483648 ≤ game.score ∧ game.score ≤ 2147483647) →
        2147483647 < game.score + 100 * n →
        game'.score = game.score + 100 * n - 4294967296) ∧
      game'.current = game.current ∧ game'.high_score = game.high_score ∧
      game'.game_over = game.game_over ∧ game'.game_started = game.game_started ∧
      game'.last_fall_time = game.last_fall_time ∧ game'.fall_speed = game.fall_speed := by
  obtain ⟨n, game', h, hn, h0, h20, hscore, hrest⟩ := clear_lines_frame game
  have hp := add_int_points game.score n ⟨h0, h20⟩
  exact ⟨n, game', h, hn, h0, h20, hscore, fun hle => hscore.trans (hp.1 hle),
    fun hr hgt => hscore.trans (hp.2 hr hgt), hrest⟩

/-- C10, concrete case: on `sampleGame` (score 40, two full rows) `clear_lines`
returns 2 and the score becomes 240; the piece and the high score stay. -/
theorem clear_lines_score_witness :
    (clear_lines sampleGame).map (fun r => (r.1, r.2.score, r.2.high_score))
      = some (2, 240, 100) ∧
    (clear_lines sampleGame).map
        (fun r => (r.2.current.x, r.2.current.y, r.2.game_over, r.2.game_started))
      = some (3, 0, false, true) := by
  decide

/-! ## `rotate_piece` -/

theorem rotate_piece_from_blocked (game : GameState) (rotated : Piece) (l : List Int)
    (h : ∀ k ∈ l, check_collision game rotated k 0 = some true) :
    rotate_piece_from game rotated l = some (false, game) := by
  induction l with
  | nil => rfl
  | cons k rest ih =>
    simp only [rotate_piece_from, h k (List.mem_cons_self _ _)]
    exact ih (fun k' hk' => h k' (List.mem_cons_of_mem _ hk'))

theorem rotate_piece_from_first (game : GameState) (rotated : Piece)
    (before after : List Int) (k : Int)
    (hbefore : ∀ k' ∈ before, check_collision game rotated k' 0 = some true)
    (hk : check_collision game rotated k 0 = some false) :
    rotate_piece_from game rotated (before ++ k :: after)
      = some (true, { game with current := { rotated with x := rotated.x + k } }) := by
  induction before with
  | nil => simp only [List.nil_append, rotate_piece_from, hk]
  | cons k' rest ih =>
    simp only [List.cons_append, rotate_piece_from, hbefore k' (List.mem_cons_self _ _)]
    exact ih (fun k'' hk'' => hbefore k'' (List.mem_cons_of_mem _ hk''))

theorem first_free_kick (game : GameState) (rotated : Piece) (l : List Int) (k : Int)
    (hmem : k ∈ l) (hk : check_collision game rotated k 0 = some false) :
    ∃ (before after : List Int) (k0 : Int), l = before ++ k0 :: after ∧
      (∀ k' ∈ before, check_collision game rotated k' 0 = some true) ∧
      check_collision game rotated k0 0 = some false := by
  induction l with
  | nil => simp at hmem
  | cons a rest ih =>
    obtain ⟨r, hr⟩ := check_collision_total game rotated a 0
    cases r with
    | false => exact ⟨[], rest, a, rfl, by simp, hr⟩
    | true =>
      have hne : k ≠ a := by
        rintro rfl
        rw [hk] at hr
        simp at hr
      have hmem' : k ∈ rest := by
        rcases List.mem_cons.mp hmem with h | h
        · exact absurd h hne
        · exact h
      obtain ⟨before, after, k0, h1, h2, h3⟩ := ih hmem'
      refine ⟨a :: before, after, k0, by rw [h1]; rfl, ?_, h3⟩
      intro k' hk'
      rcases List.mem_cons.mp hk' with h | h
      · rw [h]; exact hr
      · exact h2 k' h

/-- C3: when at least one of the offsets `0, -1, +1, -2, +2` makes the rotated
shape (`new[i][j] = old[3-j][i]`) collision-free at the current row,
`rotate_piece` returns true and commits the first such offset `k0` of that
sequence: every offset before `k0` collides, the shape becomes the rotated
shape and `x` becomes `x + k0`; `y`, the type, the board, the score and all
other fields are unchanged. -/
theorem rotate_piece_first_free (game : GameState) (k : Int)
    (hmem : k ∈ [0, -1, 1, -2, 2])
    (hk : check_collision game
      { game.current with shape := fun i j => game.current.shape ⟨3 - j.val, by omega⟩ i }
      k 0 = some false) :
    ∃ (before after : List Int) (k0 : Int), [0, -1, 1, -2, 2] = before ++ k0 :: after ∧
      (∀ k' ∈ before, check_collision game
        { game.current with shape := fun i j => game.current.shape ⟨3 - j.val, by omega⟩ i }
        k' 0 = some true) ∧
      check_collision game
        { game.current with shape := fun i j => game.current.shape ⟨3 - j.val, by omega⟩ i }
        k0 0 = some false ∧
      rotate_piece game = some (true,
        { game with
          current :=
            { shape := fun i j => game.current.shape ⟨3 - j.val, by omega⟩ i
              x := game.current.x + k0
              y := game.current.y
              type := game.current.type } }) := by
  obtain ⟨before, after, k0, h1, h2, h3⟩ := first_free_kick game _ _ k hmem hk
  refine ⟨before, after, k0, h1, h2, h3, ?_⟩
  have := rotate_piece_from_first game _ before after k0 h2 h3
  rw [← h1] at this
  exact this

/-- C3, concrete case: for the vertical I piece whose occupied column is column
9, the rotation collides at offset 0 and is committed at offset -1. -/
theorem rotate_piece_first_free_witness :
    check_collision wallGame
      { wallGame.current with shape := rotate_shape wallGame.current.shape } 0 0 = some true ∧
    (∃ (before after : List Int) (k0 : Int), [0, -1, 1, -2, 2] = before ++ k0 :: after ∧
      (∀ k' ∈ before, check_collision wallGame
        { wallGame.current with
          shape := fun i j => wallGame.current.shape ⟨3 - j.val, by omega⟩ i }
        k' 0 = some true) ∧
      check_collision wallGame
        { wallGame.current with
          shape := fun i j => wallGame.current.shape ⟨3 - j.val, by omega⟩ i }
        k0 0 = some false ∧
      rotate_piece wallGame = some (true,
        { wallGame with
          current :=
            { shape := fun i j => wallGame.current.shape ⟨3 - j.val, by omega⟩ i
              x := wallGame.current.x + k0
              y := wallGame.current.y
              type := wallGame.current.type } })) ∧
    (rotate_piece wallGame).map (fun r => (r.1, r.2.current.x, r.2.current.y))
      = some (true, 6, 5) :=
  ⟨by decide, rotate_piece_first_free wallGame (-1) (by decide) (by decide), by decide⟩

/-- C4: when the rotated shape collides at all five offsets `0, -1, +1, -2, +2`,
`rotate_piece` returns false and the whole game state is unchanged. -/
theorem rotate_piece_blocked (game : GameState)
    (h : ∀ k ∈ [0, -1, 1, -2, 2], check_collision game
      { game.current with shape := fun i j => game.current.shape ⟨3 - j.val, by omega⟩ i }
      k 0 = some true) :
    rotate_piece game = some (false, game) :=
  rotate_piece_from_blocked game _ _ h

/-- C4, concrete case: the vertical I piece in a well one column wide cannot be
rotated. -/
theorem rotate_piece_blocked_witness :
    (∀ k ∈ [0, -1, 1, -2, 2], check_collision wellGame
      { wellGame.current with
        shape := fun i j => wellGame.current.shape ⟨3 - j.val, by omega⟩ i }
      k 0 = some true) ∧
    rotate_piece wellGame = some (false, wellGame) :=
  ⟨by decide, rotate_piece_blocked wellGame (by decide)⟩

example : check_collision wellGame wellGame.current 0 0 = some false := by decide
/-! ## The fall step -/

theorem init_piece_mod (rnd : Nat) :
    init_piece ((rnd % 7 : Nat) : Int)
      = some { shape := SHAPES ⟨rnd % 7, Nat.mod_lt _ (by decide)⟩
               x := 3
               y := 0
               type := ((rnd % 7 : Nat) : Int) } := by
  have ht : 0 ≤ ((rnd % 7 : Nat) : Int) ∧ ((rnd % 7 : Nat) : Int) < 7 := by omega
  simp only [init_piece, readShape, dif_pos ht, Option.some.injEq]
  have hx : (BOARD_WIDTH / 2 - 2 : Int) = 3 := by decide
  rw [hx]
  congr 1

theorem merge_piece_eq (game : GameState) :
    merge_piece game
      = some { game with board := mergedBoard game.current game.board cells4x4 } :=
  merge_piece_from_eq game.current cells4x4 game rfl

theorem fall_step_move (s : MainState) (rnd : Nat)
    (h : check_collision s.game s.game.current 0 1 = some false) :
    fall_step s rnd = some { s with
      game := { s.game with
                current := { s.game.current with y := add_int s.game.current.y 1 } } } := by
  simp only [fall_step, h]

theorem fall_step_land (s : MainState) (rnd : Nat) (g1 g2 : GameState) (n : Int) (p : Piece)
    (h : check_collision s.game s.game.current 0 1 = some true)
    (h1 : merge_piece s.game = some g1) (h2 : clear_lines g1 = some (n, g2))
    (h3 : init_piece ((rnd % 7 : Nat) : Int) = some p) :
    fall_step s rnd =
      if check_collision { g2 with current := p } p 0 0 = some true then
        if g2.score > g2.high_score then
          some { s with
            game := { g2 with current := p, game_over := true, high_score := g2.score }
            saved := s.saved ++ [g2.score] }
        else some { s with game := { g2 with current := p, game_over := true } }
      else some { s with game := { g2 with current := p } } := by
  simp only [fall_step, h, h1, h2, h3]
  obtain ⟨r, hr⟩ := check_collision_total { g2 with current := p } p 0 0
  rw [hr]
  cases r <;> simp

theorem rotate_piece_from_frame (game : GameState) (rotated : Piece) (l : List Int) :
    ∃ (r : Bool) (game' : GameState), rotate_piece_from game rotated l = some (r, game') ∧
      game'.board = game.board ∧ game'.score = game.score ∧
      game'.high_score = game.high_score ∧ game'.game_over = game.game_over ∧
      game'.game_started = game.game_started ∧
      game'.last_fall_time = game.last_fall_time ∧ game'.fall_speed = game.fall_speed := by
  induction l with
  | nil => exact ⟨false, game, rfl, rfl, rfl, rfl, rfl, rfl, rfl, rfl⟩
  | cons k rest ih =>
    obtain ⟨r, hr⟩ := check_collision_total game rotated k 0
    cases r with
    | false =>
      simp only [rotate_piece_from, hr]
      exact ⟨true, _, rfl, rfl, rfl, rfl, rfl, rfl, rfl, rfl⟩
    | true =>
      simp only [rotate_piece_from, hr]
      exact ih

theorem playing_input_frame (game : GameState) (sym : Key) :
    ∃ game' : GameState, playing_input game sym = some game' ∧
      game'.board = game.board ∧ game'.high_score = game.high_score ∧
      game'.game_over = game.game_over ∧ game'.game_started = game.game_started ∧
      game'.last_fall_time = game.last_fall_time ∧ game'.fall_speed = game.fall_speed := by
  cases sym with
  | SDLK_SPACE => exact ⟨game, rfl, rfl, rfl, rfl, rfl, rfl, rfl⟩
  | SDLK_ESCAPE => exact ⟨game, rfl, rfl, rfl, rfl, rfl, rfl, rfl⟩
  | other => exact ⟨game, rfl, rfl, rfl, rfl, rfl, rfl, rfl⟩
  | SDLK_LEFT =>
    obtain ⟨r, hr⟩ := check_collision_total game game.current (-1) 0
    cases r
    · simp only [playing_input, hr]
      exact ⟨_, rfl, rfl, rfl, rfl, rfl, rfl, rfl⟩
    · simp only [playing_input, hr]
      exact ⟨_, rfl, rfl, rfl, rfl, rfl, rfl, rfl⟩
  | SDLK_RIGHT =>
    obtain ⟨r, hr⟩ := check_collision_total game game.current 1 0
    cases r
    · simp only [playing_input, hr]
      exact ⟨_, rfl, rfl, rfl, rfl, rfl, rfl, rfl⟩
    · simp only [playing_input, hr]
      exact ⟨_, rfl, rfl, rfl, rfl, rfl, rfl, rfl⟩
  | SDLK_DOWN =>
    obtain ⟨r, hr⟩ := check_collision_total game game.current 0 1
    cases r
    · simp only [playing_input, hr]
      exact ⟨_, rfl, rfl, rfl, rfl, rfl, rfl, rfl⟩
    · simp only [playing_input, hr]
      exact ⟨_, rfl, rfl, rfl, rfl, rfl, rfl, rfl⟩
  | SDLK_UP =>
    obtain ⟨r, game', h, hb, _, hh, ho, hs, ht, hf⟩ := rotate_piece_from_frame game
      { game.current with shape := rotate_shape game.current.shape } kicks
    exact ⟨game', by simp only [playing_input, rotate_piece, h], hb, hh, ho, hs, ht, hf⟩

theorem handle_event_playing (s : MainState) (e : Event)
    (hstarted : s.game.game_started = true) (hover : s.game.game_over = false) :
    ∃ s' : MainState, handle_event s e = some s' ∧
      s'.game.game_started = true ∧ s'.game.game_over = false ∧
      s'.game.high_score = s.game.high_score ∧ s'.saved = s.saved := by
  cases e with
  | SDL_QUIT => exact ⟨_, rfl, hstarted, hover, rfl, rfl⟩
  | other => exact ⟨_, rfl, hstarted, hover, rfl, rfl⟩
  | SDL_KEYDOWN sym ticks rnd =>
    obtain ⟨game', h, _, hh, ho, hs, _⟩ := playing_input_frame s.game sym
    simp only [handle_event, handle_keydown, hstarted, hover, Bool.not_true,
      Bool.false_eq_true, if_false, h]
    exact ⟨_, rfl, hs.trans hstarted, ho.trans hover, hh, rfl⟩

theorem handle_events_playing (events : List Event) :
    ∀ s : MainState, s.game.game_started = true → s.game.game_over = false →
      ∃ s' : MainState, handle_events s events = some s' ∧
        s'.game.game_started = true ∧ s'.game.game_over = false ∧
        s'.game.high_score = s.game.high_score ∧ s'.saved = s.saved := by
  induction events with
  | nil =>
    intro s hstarted hover
    exact ⟨s, rfl, hstarted, hover, rfl, rfl⟩
  | cons e rest ih =>
    intro s hstarted hover
    obtain ⟨s1, h1, hs1, ho1, hh1, hv1⟩ := handle_event_playing s e hstarted hover
    obtain ⟨s2, h2, hs2, ho2, hh2, hv2⟩ := ih s1 hs1 ho1
    exact ⟨s2, by simp only [handle_events, h1, h2], hs2, ho2, hh2.trans hh1, hv2.trans hv1⟩

theorem game_logic_not_due (s : MainState) (current_time rnd : Nat)
    (hdue : fall_due s.game current_time = false) :
    game_logic s current_time rnd = some s := by
  simp only [game_logic, hdue, Bool.false_eq_true, if_false, ite_self]

theorem game_logic_due (s : MainState) (current_time rnd : Nat)
    (hstarted : s.game.game_started = true) (hover : s.game.game_over = false)
    (hdue : fall_due s.game current_time = true) :
    game_logic s current_time rnd =
      match fall_step s rnd with
      | none => none
      | some s' => some { s' with game := { s'.game with last_fall_time := current_time } } := by
  simp only [game_logic, hstarted, hover, hdue, Bool.not_false, Bool.and_self, if_true]

/-- C6: in the Playing phase no input event sets `game_over`, changes the high
score or calls `save_highscore`; the game logic sets `game_over` exactly when
the fall step runs, the active piece collides at `(0, +1)`, and the piece
spawned after merge and line clearing collides at `(0, 0)` with the resulting
board.  On that transition, if the score exceeds the stored high score, the
high score becomes the score and `save_highscore` is called exactly once with
it; otherwise the high score is unchanged and nothing is saved. -/
theorem game_over_spec (s : MainState)
    (hstarted : s.game.game_started = true) (hover : s.game.game_over = false) :
    (∀ events : List Event, ∃ s' : MainState, handle_events s events = some s' ∧
      s'.game.game_started = true ∧ s'.game.game_over = false ∧
      s'.game.high_score = s.game.high_score ∧ s'.saved = s.saved) ∧
    (∀ current_time rnd : Nat, ∃ s' : MainState,
      game_logic s current_time rnd = some s' ∧
      (s'.game.game_over = true ↔
        (fall_due s.game current_time = true ∧
          check_collision s.game s.game.current 0 1 = some true ∧
          ∃ (g1 g2 : GameState) (n : Int) (p : Piece),
            merge_piece s.game = some g1 ∧ clear_lines g1 = some (n, g2) ∧
            init_piece ((rnd % 7 : Nat) : Int) = some p ∧
            check_collision { g2 with current := p } p 0 0 = some true)) ∧
      (s'.game.game_over = true → s'.game.score > s.game.high_score →
        s'.game.high_score = s'.game.score ∧ s'.saved = s.saved ++ [s'.game.score]) ∧
      (s'.game.game_over = true → ¬ (s'.game.score > s.game.high_score) →
        s'.game.high_score = s.game.high_score ∧ s'.saved = s.saved) ∧
      (s'.game.game_over = false →
        s'.game.high_score = s.game.high_score ∧ s'.saved = s.saved)) := by
  refine ⟨fun events => handle_events_playing events s hstarted hover, ?_⟩
  intro current_time rnd
  cases hdue : fall_due s.game current_time with
  | false =>
    refine ⟨s, game_logic_not_due s current_time rnd hdue, ?_, ?_, ?_, ?_⟩
    · simp [hover]
    · simp [hover]
    · simp [hover]
    · exact fun _ => ⟨rfl, rfl⟩
  | true =>
    have hlogic := game_logic_due s current_time rnd hstarted hover hdue
    obtain ⟨r, hr⟩ := check_collision_total s.game s.game.current 0 1
    cases r with
    | false =>
      rw [fall_step_move s rnd hr] at hlogic
      refine ⟨_, hlogic, ?_, ?_, ?_, ?_⟩
      · simp [hover, hr]
      · simp [hover]
      · simp [hover]
      · exact fun _ => ⟨rfl, rfl⟩
    | true =>
      obtain ⟨n, g2, h2, _, _, _, _, _, hhigh, hgo, _⟩ := clear_lines_frame
        { s.game with board := mergedBoard s.game.current s.game.board cells4x4 }
      have hhigh' : g2.high_score = s.game.high_score := hhigh
      have hgo' : g2.game_over = false := hgo.trans hover
      have hstep := fall_step_land s rnd _ g2 n _ hr (merge_piece_eq s.game) h2
        (init_piece_mod rnd)
      split_ifs at hstep with hc hs
      · rw [hstep] at hlogic
        refine ⟨_, hlogic, ?_, ?_, ?_, ?_⟩
        · refine iff_of_true rfl ⟨rfl, hr, ?_⟩
          exact ⟨_, g2, n, _, merge_piece_eq s.game, h2, init_piece_mod rnd, hc⟩
        · intro _ _
          exact ⟨rfl, rfl⟩
        · intro _ hns
          exact absurd (hhigh' ▸ hs) hns
        · intro hfalse
          simp at hfalse
      · rw [hstep] at hlogic
        refine ⟨_, hlogic, ?_, ?_, ?_, ?_⟩
        · refine iff_of_true rfl ⟨rfl, hr, ?_⟩
          exact ⟨_, g2, n, _, merge_piece_eq s.game, h2, init_piece_mod rnd, hc⟩
        · intro _ hgt
          exact absurd (hhigh' ▸ hgt) hs
        · intro _ _
          exact ⟨hhigh', rfl⟩
        · intro _
          exact ⟨hhigh', rfl⟩
      · rw [hstep] at hlogic
        refine ⟨_, hlogic, ?_, ?_, ?_, ?_⟩
        · refine iff_of_false (by simp [hgo']) ?_
          rintro ⟨_, _, g1, g2', n', p, h1', h2', h3', hc'⟩
          rw [merge_piece_eq] at h1'
          cases h1'
          rw [h2] at h2'
          cases h2'
          rw [init_piece_mod] at h3'
          cases h3'
          exact hc hc'
        · intro h
          simp [hgo'] at h
        · intro h
          simp [hgo'] at h
        · intro _
          exact ⟨hhigh', rfl⟩

/-- C6, concrete case: the O piece of `toppedState` lands on the fall tick, the
spawned I piece collides at once, and the game is over.  With score 500 over a
stored high score 100 the high score becomes 500 and is saved once; with score
500 under a stored high score 900 nothing changes and nothing is saved. -/
theorem game_over_spec_witness :
    (∃ s' : MainState, game_logic (toppedState 500 100) 1000 0 = some s' ∧
      s'.game.game_over = true ∧ s'.game.high_score = 500 ∧ s'.saved = [500]) ∧
    (game_logic (toppedState 500 100) 1000 0).map
        (fun s' => (s'.game.game_over, s'.game.score, s'.game.high_score, s'.saved))
      = some (true, 500, 500, [500]) ∧
    (game_logic (toppedState 500 900) 1000 0).map
        (fun s' => (s'.game.game_over, s'.game.score, s'.game.high_score, s'.saved))
      = some (true, 500, 900, []) := by
  refine ⟨?_, by decide, by decide⟩
  obtain ⟨s', h1, _, h3, _, _⟩ := (game_over_spec (toppedState 500 100) rfl rfl).2 1000 0
  have hev : (game_logic (toppedState 500 100) 1000 0).map
      (fun s' => (s'.game.game_over, s'.game.score)) = some (true, 500) := by decide
  rw [h1] at hev
  simp only [Option.map_some', Option.some.injEq, Prod.mk.injEq] at hev
  obtain ⟨hgo, hscore⟩ := hev
  have h := h3 hgo (by rw [hscore]; decide)
  rw [hscore] at h
  exact ⟨s', h1, hgo, h.1, h.2⟩

/-! ## Translation actions -/

/-- A collision-free test at a small horizontal offset bounds the column of a
piece with an occupied cell: the offset is then added to `x` without overflow. -/
theorem free_move_exact (g : GameState) (p : Piece) (dx : Int) (hdx : -2 ≤ dx ∧ dx ≤ 2)
    (hocc : ∃ i j : Fin 4, p.shape i j ≠ 0)
    (h : check_collision g p dx 0 = some false) : add_int p.x dx = p.x + dx := by
  obtain ⟨i, j, hij⟩ := hocc
  have hfree := (check_collision_false_iff_free g p dx 0).mp h i j hij
  obtain ⟨h0, h10, _⟩ := hfree
  have hj := j.isLt
  revert h0 h10
  unfold add_int wrap_int
  simp only [INT_MIN, INT_MAX]
  intro h0 h10
  split_ifs at h0 h10 ⊢ <;> omega

theorem fall_step_total (s : MainState) (rnd : Nat) :
    ∃ s1 : MainState, fall_step s rnd = some s1 := by
  obtain ⟨r, hr⟩ := check_collision_total s.game s.game.current 0 1
  cases r with
  | false => exact ⟨_, fall_step_move s rnd hr⟩
  | true =>
    obtain ⟨n, g2, h2, _⟩ := clear_lines_frame
      { s.game with board := mergedBoard s.game.current s.game.board cells4x4 }
    have hstep := fall_step_land s rnd _ g2 n _ hr (merge_piece_eq s.game) h2
      (init_piece_mod rnd)
    split_ifs at hstep
    · exact ⟨_, hstep⟩
    · exact ⟨_, hstep⟩
    · exact ⟨_, hstep⟩

theorem fall_due_iff (game : GameState) (current_time : Nat) :
    fall_due game current_time = true ↔
      elapsed game current_time > game.fall_speed % 4294967296 := by
  simp only [fall_due, elapsed, decide_eq_true_eq]

/-- C12 as stated fails: in the Playing state `dropState 0` (last fall at time 0,
fall interval 500) at time 500 the elapsed time equals the interval, yet the
game logic leaves the state unchanged, while the fall step would have moved
the piece to row 1. -/
theorem fall_timer_counterexample :
    (dropState 0).game.game_started = true ∧ (dropState 0).game.game_over = false ∧
    elapsed (dropState 0).game 500 = 500 ∧ (dropState 0).game.fall_speed = 500 ∧
    elapsed (dropState 0).game 500 ≥ (dropState 0).game.fall_speed ∧
    game_logic (dropState 0) 500 4 = some (dropState 0) ∧
    (game_logic (dropState 0) 500 4).map
        (fun s' => (s'.game.current.y, s'.game.last_fall_time)) = some (0, 0) ∧
    (fall_step (dropState 0) 4).map (fun s1 => s1.game.current.y) = some 1 :=
  ⟨rfl, rfl, by decide, rfl, by decide, game_logic_not_due _ _ _ (by decide), by decide,
    by decide⟩

/-- C12, amended: in the Playing phase the fall step runs on a loop iteration
exactly when the elapsed time `current_time - last_fall_time` (on `Uint32`) is
strictly greater than the fall interval; when it runs, the step always returns
and the last-fall time stamp of the resulting state is the current time,
whatever the step did; when it does not run, the state is unchanged.  With the
interval 500 and time stamps that have not wrapped around, it runs exactly when
more than 500 ms have passed, and so not at exactly 500 ms. -/
theorem fall_timer_spec (s : MainState) (current_time rnd : Nat)
    (hstarted : s.game.game_started = true) (hover : s.game.game_over = false) :
    (elapsed s.game current_time > s.game.fall_speed % 4294967296 →
      ∃ s1 : MainState, fall_step s rnd = some s1 ∧
        game_logic s current_time rnd
          = some { s1 with game := { s1.game with last_fall_time := current_time } }) ∧
    (¬ elapsed s.game current_time > s.game.fall_speed % 4294967296 →
      game_logic s current_time rnd = some s) ∧
    (s.game.fall_speed = 500 → s.game.last_fall_time ≤ current_time →
      current_time < 4294967296 →
      (elapsed s.game current_time > s.game.fall_speed % 4294967296 ↔
        current_time - s.game.last_fall_time > 500)) := by
  refine ⟨?_, ?_, ?_⟩
  · intro h
    have hdue := (fall_due_iff s.game current_time).mpr h
    obtain ⟨s1, h1⟩ := fall_step_total s rnd
    refine ⟨s1, h1, ?_⟩
    rw [game_logic_due s current_time rnd hstarted hover hdue, h1]
  · intro h
    have hdue : fall_due s.game current_time = false := by
      cases hd : fall_due s.game current_time
      · rfl
      · exact absurd ((fall_due_iff s.game current_time).mp hd) h
    exact game_logic_not_due s current_time rnd hdue
  · intro h500 hle hlt
    simp only [elapsed, h500]
    omega

/-- C12 amended, concrete case: for `dropState 0` (last fall at 0, interval 500)
the step does not run at time 500 and runs at time 501, moving the piece to row
1 and setting the time stamp to 501. -/
theorem fall_timer_spec_witness :
    game_logic (dropState 0) 500 4 = some (dropState 0) ∧
    (game_logic (dropState 0) 501 4).map
        (fun s' => (s'.game.current.y, s'.game.last_fall_time)) = some (1, 501) :=
  ⟨(fall_timer_spec (dropState 0) 500 4 rfl rfl).2.1 (by decide), by decide⟩

/-! ## The start action -/

/-- C13: outside the Playing phase (not started, or game over) the start key
performs one and the same reset: the score is 0, every board cell is empty, the
fall interval is 500, the last-fall time stamp is the time read by the reset,
the active piece is the spawn `init_piece (rnd % 7)` at `(3, 0)`, the phase is
Playing, and the high score, the `running` flag and the save log are kept. -/
theorem start_action_spec (s : MainState) (ticks rnd : Nat)
    (hphase : s.game.game_started = false ∨ s.game.game_over = true) :
    init_piece ((rnd % 7 : Nat) : Int)
      = some { shape := SHAPES ⟨rnd % 7, Nat.mod_lt _ (by decide)⟩
               x := 3
               y := 0
               type := ((rnd % 7 : Nat) : Int) } ∧
    handle_event s (Event.SDL_KEYDOWN Key.SDLK_SPACE ticks rnd) = some { s with
      game :=
        { board := fun _ _ => 0
          current := { shape := SHAPES ⟨rnd % 7, Nat.mod_lt _ (by decide)⟩
                       x := 3
                       y := 0
                       type := ((rnd % 7 : Nat) : Int) }
          score := 0
          high_score := s.game.high_score
          game_over := false
          game_started := true
          last_fall_time := ticks
          fall_speed := 500 } } := by
  refine ⟨init_piece_mod rnd, ?_⟩
  cases hs : s.game.game_started with
  | false =>
    simp only [handle_event, handle_keydown, hs, reset_game, init_piece_mod rnd]
    rfl
  | true =>
    have ho : s.game.game_over = true := by
      rcases hphase with h | h
      · rw [hs] at h
        cases h
      · exact h
    simp only [handle_event, handle_keydown, hs, ho, reset_game, init_piece_mod rnd]
    rfl

/-- C13, concrete cases: the start key on the start screen (`idleState`) and
after a game over (`overState`) gives the same fresh game, with the respective
high score (100 and 500) kept. -/
theorem start_action_spec_witness :
    handle_event idleState (Event.SDL_KEYDOWN Key.SDLK_SPACE 7000 9)
      = some { idleState with game := freshGame 100 } ∧
    handle_event overState (Event.SDL_KEYDOWN Key.SDLK_SPACE 7000 9)
      = some { overState with game := freshGame 500 } :=
  ⟨(start_action_spec idleState 7000 9 (Or.inl rfl)).2,
    (start_action_spec overState 7000 9 (Or.inr rfl)).2⟩

/-! ## Rotation keeps the number of occupied cells -/

theorem occupiedCount_rotate (s : Shape) :
    occupiedCount (rotate_shape s) = occupiedCount s := by
  unfold occupiedCount
  apply Finset.card_bij (fun ij _ => ((⟨3 - ij.2.val, by omega⟩ : Fin 4), ij.1))
  · intro ij h
    simpa [rotate_shape] using h
  · rintro ⟨a, b⟩ _ ⟨c, d⟩ _ h
    simp only [Prod.mk.injEq, Fin.mk.injEq] at h
    obtain ⟨h1, h2⟩ := h
    have := b.isLt
    have := d.isLt
    exact Prod.ext h2 (Fin.ext (by simp only; omega))
  · rintro ⟨a, b⟩ h
    have hfin : (⟨3 - (3 - a.val), by omega⟩ : Fin 4) = a := Fin.ext (by simp only; omega)
    refine ⟨(b, ⟨3 - a.val, by omega⟩), ?_, ?_⟩
    · simp only [Finset.mem_filter, Finset.mem_univ, true_and, rotate_shape] at h ⊢
      rw [hfin]
      exact h
    · simp only [hfin]

theorem shapes_four_cells : ∀ t : Fin 7, occupiedCount (SHAPES t) = 4 := by
  decide

/-- The two outcomes of `rotate_piece`: failure with the state untouched, or
success with the rotated shape committed at a collision-free kick. -/
theorem rotate_piece_from_cases (game : GameState) (rotated : Piece) (l : List Int) :
    ∃ (r : Bool) (game' : GameState), rotate_piece_from game rotated l = some (r, game') ∧
      ((r = false ∧ game' = game) ∨
        (r = true ∧ ∃ k : Int, check_collision game rotated k 0 = some false ∧
          game' = { game with current := { rotated with x := rotated.x + k } })) := by
  induction l with
  | nil => exact ⟨false, game, rfl, Or.inl ⟨rfl, rfl⟩⟩
  | cons k rest ih =>
    obtain ⟨r, hr⟩ := check_collision_total game rotated k 0
    cases r with
    | false =>
      simp only [rotate_piece_from, hr]
      exact ⟨true, _, rfl, Or.inr ⟨rfl, k, hr, rfl⟩⟩
    | true =>
      simp only [rotate_piece_from, hr]
      exact ih

/-- C16: the rotation transform `new[i][j] = old[3-j][i]` keeps the number of
occupied cells of every 4x4 shape; `rotate_piece` always returns, and whether
it succeeds or fails the active piece has as many occupied cells after the call
as before (on success its shape is the rotated shape). -/
theorem rotation_keeps_cell_count (game : GameState) :
    (∀ s : Shape, occupiedCount (fun i j => s ⟨3 - j.val, by omega⟩ i) = occupiedCount s) ∧
    ∃ (r : Bool) (game' : GameState), rotate_piece game = some (r, game') ∧
      occupiedCount game'.current.shape = occupiedCount game.current.shape ∧
      (r = true →
        game'.current.shape = fun i j => game.current.shape ⟨3 - j.val, by omega⟩ i) := by
  refine ⟨fun s => occupiedCount_rotate s, ?_⟩
  obtain ⟨r, game', h, hcase⟩ := rotate_piece_from_cases game
    { game.current with shape := rotate_shape game.current.shape } kicks
  refine ⟨r, game', h, ?_, ?_⟩
  · rcases hcase with ⟨_, rfl⟩ | ⟨_, k, _, rfl⟩
    · rfl
    · exact occupiedCount_rotate game.current.shape
  · intro hr
    rcases hcase with ⟨hf, _⟩ | ⟨_, k, _, rfl⟩
    · rw [hr] at hf
      cases hf
    · rfl

/-- C16, concrete case: the vertical I piece of `wallGame` has four occupied
cells; its rotation succeeds and the rotated piece has four occupied cells. -/
theorem rotation_keeps_cell_count_witness :
    occupiedCount wallGame.current.shape = 4 ∧
    (rotate_piece wallGame).map (fun r => (r.1, occupiedCount r.2.current.shape))
      = some (true, 4) := by
  decide

/-! ## Termination of `clear_lines` -/

/-- The loop of `clear_lines` needs one unit of fuel per row, one per full row and
one for the final failing test. -/
theorem clear_lines_fuel_min (fuel : Nat) (game : GameState)
    (hf : 21 + (boardRows game.board).countP rowFull ≤ fuel) :
    ∃ b' : Board,
      clear_lines_fuel fuel game
        = some ((((boardRows game.board).countP rowFull : Nat) : Int),
            { game with
              board := b'
              score := add_int game.score
                ((((boardRows game.board).countP rowFull : Nat) : Int) * 100) }) ∧
      boardRows b' =
        List.replicate ((boardRows game.board).countP rowFull) emptyRow
          ++ (boardRows game.board).filter (fun row => !rowFull row) := by
  have htake : (boardRows game.board).take 20 = boardRows game.board :=
    List.take_of_length_le (by rw [boardRows_length])
  have hdrop : (boardRows game.board).drop 20 = [] :=
    List.drop_of_length_le (by rw [boardRows_length])
  obtain ⟨b', h1, h2⟩ := clear_lines_loop_rows fuel 20 game.board 0 (le_refl _) (by
    rw [htake]
    omega)
  rw [htake] at h1 h2
  rw [hdrop, List.append_nil] at h2
  refine ⟨b', ?_, h2⟩
  have hidx : ((20 : Nat) : Int) - 1 = BOARD_HEIGHT - 1 := by decide
  rw [hidx, zero_add] at h1
  simp only [clear_lines_fuel, h1]

/-- C18: `clear_lines` terminates on every board although a clear leaves the row
index unchanged: the returned count `n`, which is the number of clears the scan
performed, is between 0 and 20; the loop condition is tested `21 + n <= 41`
times, so every fuel of at least `21 + n`, in particular every fuel of at least
41, gives the same result as `clear_lines`. -/
theorem clear_lines_terminates (game : GameState) (fuel : Nat) (hf : 41 ≤ fuel) :
    ∃ (n : Nat) (game' : GameState),
      clear_lines game = some ((n : Int), game') ∧
      clear_lines_fuel fuel game = some ((n : Int), game') ∧
      n ≤ 20 ∧
      ∀ fuel' : Nat, 21 + n ≤ fuel' → clear_lines_fuel fuel' game = some ((n : Int), game') := by
  have hle : (boardRows game.board).countP rowFull ≤ 20 := by
    have := List.countP_le_length rowFull (l := boardRows game.board)
    rw [boardRows_length] at this
    exact this
  obtain ⟨b0, h0, r0⟩ := clear_lines_fuel_min 41 game (by omega)
  have hmin : ∀ fuel' : Nat, 21 + (boardRows game.board).countP rowFull ≤ fuel' →
      clear_lines_fuel fuel' game = some ((((boardRows game.board).countP rowFull : Nat) : Int),
        { game with
          board := b0
          score := add_int game.score
            ((((boardRows game.board).countP rowFull : Nat) : Int) * 100) }) := by
    intro fuel' hf'
    obtain ⟨b1, h1, r1⟩ := clear_lines_fuel_min fuel' game hf'
    have hb : b1 = b0 := List.ofFn_injective (by
      show boardRows b1 = boardRows b0
      rw [r1, r0])
    rw [h1, hb]
  exact ⟨_, _, h0, hmin fuel (by omega), hle, hmin⟩

/-- C18, concrete cases: on `sampleGame` (two full rows) the scan returns 2 with
fuel 23 and runs out of fuel with 22; on `stackGame` (three full rows) it
returns 3 with fuel 24 and runs out of fuel with 23. -/
theorem clear_lines_terminates_witness :
    (∃ (n : Nat) (game' : GameState),
      clear_lines sampleGame = some ((n : Int), game') ∧
      clear_lines_fuel 50 sampleGame = some ((n : Int), game') ∧
      n ≤ 20 ∧
      ∀ fuel' : Nat, 21 + n ≤ fuel' →
        clear_lines_fuel fuel' sampleGame = some ((n : Int), game')) ∧
    (clear_lines_fuel 23 sampleGame).map (fun r => r.1) = some 2 ∧
    (clear_lines_fuel 22 sampleGame).map (fun r => r.1) = none ∧
    (clear_lines_fuel 24 stackGame).map (fun r => r.1) = some 3 ∧
    (clear_lines_fuel 23 stackGame).map (fun r => r.1) = none :=
  ⟨clear_lines_terminates sampleGame 50 (by decide), by decide, by decide, by decide,
    by decide⟩

/-! ## Board accesses stay inside the array -/

theorem readCell_eq_none_iff (b : Board) (r c : Int) :
    readCell b r c = none ↔ ¬ (0 ≤ r ∧ r < 20 ∧ 0 ≤ c ∧ c < 10) := by
  unfold readCell
  split
  · rename_i h
    simp [h]
  · rename_i h
    simp [h]

theorem writeCell_eq_none_iff (b : Board) (r c v : Int) :
    writeCell b r c v = none ↔ ¬ (0 ≤ r ∧ r < 20 ∧ 0 ≤ c ∧ c < 10) := by
  unfold writeCell
  split
  · rename_i h
    simp [h]
  · rename_i h
    simp [h]

/-- C20: a board read or write fails exactly when its row index is outside
`0..19` or its column index outside `0..9`, and such a failure is the only way
`check_collision` and `merge_piece` can fail; yet for every piece position
(negative or far beyond the board) and every offset both functions return a
result.  So every access they perform is inside the array: the bound checks of
lines 110-119 and 135 precede it, and the out-of-range branch is unreachable. -/
theorem board_access_in_range (game : GameState) (piece : Piece) (dx dy : Int) :
    (∀ (b : Board) (r c : Int),
      readCell b r c = none ↔ ¬ (0 ≤ r ∧ r < 20 ∧ 0 ≤ c ∧ c < 10)) ∧
    (∀ (b : Board) (r c v : Int),
      writeCell b r c v = none ↔ ¬ (0 ≤ r ∧ r < 20 ∧ 0 ≤ c ∧ c < 10)) ∧
    check_collision game piece dx dy ≠ none ∧
    merge_piece game ≠ none ∧
    (∀ i j : Fin 4,
      ¬ (piece.x + (j.val : Int) + dx < 0 ∨ piece.x + (j.val : Int) + dx ≥ BOARD_WIDTH) →
      ¬ (piece.y + (i.val : Int) + dy ≥ BOARD_HEIGHT) → piece.y + (i.val : Int) + dy ≥ 0 →
      readCell game.board (piece.y + (i.val : Int) + dy) (piece.x + (j.val : Int) + dx)
        ≠ none) ∧
    (∀ (i j : Fin 4) (v : Int),
      (game.current.y + (i.val : Int) ≥ 0 ∧ game.current.y + (i.val : Int) < BOARD_HEIGHT ∧
        game.current.x + (j.val : Int) ≥ 0 ∧ game.current.x + (j.val : Int) < BOARD_WIDTH) →
      writeCell game.board (game.current.y + (i.val : Int)) (game.current.x + (j.val : Int)) v
        ≠ none) := by
  refine ⟨readCell_eq_none_iff, writeCell_eq_none_iff, ?_, ?_, ?_, ?_⟩
  · obtain ⟨r, hr⟩ := check_collision_total game piece dx dy
    rw [hr]
    simp
  · rw [merge_piece_eq]
    simp
  · intro i j h1 h2 h3
    rw [Ne, readCell_eq_none_iff, not_not]
    simp only [BOARD_WIDTH, BOARD_HEIGHT] at h1 h2
    omega
  · intro i j v h
    rw [Ne, writeCell_eq_none_iff, not_not]
    simp only [BOARD_WIDTH, BOARD_HEIGHT] at h
    omega

/-- C20, concrete cases: with the piece far to the left of, far below, and far
above and right of the board, `check_collision` and `merge_piece` still return,
and the merge leaves the board of `sampleGame` unchanged. -/
theorem board_access_in_range_witness :
    check_collision sampleGame { sampleGame.current with x := -1000, y := 5 } 0 0 = some true ∧
    check_collision sampleGame { sampleGame.current with x := 3, y := 1000 } 2 7 = some true ∧
    check_collision sampleGame { sampleGame.current with x := 3, y := -1000 } 0 0
      = some false ∧
    (∀ (r : Fin 20) (c : Fin 10),
      (merge_piece { sampleGame with
          current := { sampleGame.current with x := 1000, y := -1000 } }).map
        (fun g => g.board r c) = some (sampleGame.board r c)) := by
  decide

/-! ## States reachable from a reset -/

theorem check_collision_from_board (g g' : GameState) (piece : Piece) (dx dy : Int)
    (hb : g.board = g'.board) (l : List (Fin 4 × Fin 4)) :
    check_collision_from g piece dx dy l = check_collision_from g' piece dx dy l := by
  induction l with
  | nil => rfl
  | cons ij rest ih =>
    obtain ⟨i, j⟩ := ij
    simp only [check_collision_from, hb, ih]

theorem check_collision_board (g g' : GameState) (piece : Piece) (dx dy : Int)
    (hb : g.board = g'.board) :
    check_collision g piece dx dy = check_collision g' piece dx dy :=
  check_collision_from_board g g' piece dx dy hb cells4x4

theorem occupied_exists (s : Shape) (h : occupiedCount s = 4) : ∃ i j, s i j ≠ 0 := by
  unfold occupiedCount at h
  have hpos : 0 < (Finset.univ.filter (fun ij : Fin 4 × Fin 4 => s ij.1 ij.2 ≠ 0)).card := by
    omega
  obtain ⟨ij, hij⟩ := Finset.card_pos.mp hpos
  exact ⟨ij.1, ij.2, (Finset.mem_filter.mp hij).2⟩

/-- At positions and offsets far from the `int` bounds the sums of
`check_collision` are the exact sums. -/
theorem cellFree_small (g : GameState) (p : Piece) (dx dy : Int) (i j : Fin 4)
    (hpx : -1000 ≤ p.x ∧ p.x ≤ 1000) (hpy : -1000 ≤ p.y ∧ p.y ≤ 1000)
    (hdx : -1000 ≤ dx ∧ dx ≤ 1000) (hdy : -1000 ≤ dy ∧ dy ≤ 1000) :
    cellFree g p dx dy i j ↔
      (0 ≤ p.x + (j.val : Int) + dx ∧ p.x + (j.val : Int) + dx < 10 ∧
        p.y + (i.val : Int) + dy < 20 ∧
        (0 ≤ p.y + (i.val : Int) + dy →
          readCell g.board (p.y + (i.val : Int) + dy) (p.x + (j.val : Int) + dx) = some 0)) := by
  unfold cellFree
  rw [add_add_int_exact p.x dx j.val j.isLt (by omega) (by omega),
    add_add_int_exact p.y dy i.val i.isLt (by omega) (by omega)]

theorem moved_range (g : GameState) (p : Piece) (dx dy : Int)
    (hpx : -3 ≤ p.x ∧ p.x ≤ 9) (hpy : 0 ≤ p.y ∧ p.y ≤ 19)
    (hdx : -2 ≤ dx ∧ dx ≤ 2) (hdy : 0 ≤ dy ∧ dy ≤ 1)
    (h4 : occupiedCount p.shape = 4)
    (h : check_collision g p dx dy = some false) :
    (-3 ≤ p.x + dx ∧ p.x + dx ≤ 9) ∧ (0 ≤ p.y + dy ∧ p.y + dy ≤ 19) := by
  obtain ⟨i, j, hocc⟩ := occupied_exists p.shape h4
  have hfree := (cellFree_small g p dx dy i j (by omega) (by omega) (by omega) (by omega)).mp
    ((check_collision_false_iff_free g p dx dy).mp h i j hocc)
  have hi := i.isLt
  have hj := j.isLt
  omega

theorem check_collision_moved (g g' : GameState) (p q : Piece) (dx dy : Int)
    (hb : g.board = g'.board) (hs : q.shape = p.shape)
    (hx : q.x = p.x + dx) (hy : q.y = p.y + dy)
    (hpx : -3 ≤ p.x ∧ p.x ≤ 9) (hpy : 0 ≤ p.y ∧ p.y ≤ 19)
    (hdx : -2 ≤ dx ∧ dx ≤ 2) (hdy : 0 ≤ dy ∧ dy ≤ 1)
    (h : check_collision g p dx dy = some false) :
    check_collision g' q 0 0 = some false := by
  rw [← check_collision_board g g' q 0 0 hb, check_collision_false_iff_free]
  intro i j hocc
  rw [hs] at hocc
  have hfree := (cellFree_small g p dx dy i j (by omega) (by omega) (by omega) (by omega)).mp
    ((check_collision_false_iff_free g p dx dy).mp h i j hocc)
  rw [cellFree_small g q 0 0 i j (by omega) (by omega) (by omega) (by omega)]
  have ex : q.x + (j.val : Int) + 0 = p.x + (j.val : Int) + dx := by rw [hx]; ring
  have ey : q.y + (i.val : Int) + 0 = p.y + (i.val : Int) + dy := by rw [hy]; ring
  rw [ex, ey]
  exact hfree

theorem spawn_free (g : GameState) (p : Piece) (hb : ∀ r c, g.board r c = 0)
    (hx : p.x = 3) (hy : p.y = 0) :
    check_collision g p 0 0 = some false := by
  rw [check_collision_false_iff_free]
  intro i j _
  have hi := i.isLt
  have hj := j.isLt
  rw [cellFree_small g p 0 0 i j (by omega) (by omega) (by omega) (by omega)]
  simp only [hx, hy]
  refine ⟨by omega, by omega, by omega, fun _ => ?_⟩
  rw [readCell_of_range _ _ _ (by omega), hb]

theorem reset_game_eq (g0 : GameState) (ticks rnd : Nat) :
    reset_game g0 ticks rnd = some
      { board := fun _ _ => 0
        current := { shape := SHAPES ⟨rnd % 7, Nat.mod_lt _ (by decide)⟩
                     x := 3
                     y := 0
                     type := ((rnd % 7 : Nat) : Int) }
        score := 0
        high_score := g0.high_score
        game_over := false
        game_started := true
        last_fall_time := ticks
        fall_speed := 500 } := by
  simp only [reset_game, init_piece_mod rnd]

theorem reset_game_inv (g0 g : GameState) (ticks rnd : Nat)
    (h : reset_game g0 ticks rnd = some g) : GameInv g := by
  rw [reset_game_eq] at h
  cases h
  exact
    { started := rfl
      score_int := by
        show INT_MIN ≤ (0 : Int) ∧ (0 : Int) ≤ INT_MAX
        decide
      cells := fun _ _ => by
        show (0 : Int) ≤ 0 ∧ (0 : Int) ≤ 7
        decide
      type_range := by
        show 0 ≤ ((rnd % 7 : Nat) : Int) ∧ ((rnd % 7 : Nat) : Int) ≤ 6
        omega
      x_range := by
        show (-3 : Int) ≤ 3 ∧ (3 : Int) ≤ 9
        decide
      y_range := by
        show (0 : Int) ≤ 0 ∧ (0 : Int) ≤ 19
        decide
      four := by
        show occupiedCount (SHAPES ⟨rnd % 7, Nat.mod_lt _ (by decide)⟩) = 4
        exact shapes_four_cells _
      free := fun _ => spawn_free _ _ (fun _ _ => rfl) rfl rfl }

/-! ## Invariants of the states reachable from a reset -/

theorem rotate_piece_from_mem (game : GameState) (rotated : Piece) (l : List Int) :
    ∃ (r : Bool) (game' : GameState), rotate_piece_from game rotated l = some (r, game') ∧
      ((r = false ∧ game' = game) ∨
        (r = true ∧ ∃ k : Int, k ∈ l ∧ check_collision game rotated k 0 = some false ∧
          game' = { game with current := { rotated with x := rotated.x + k } })) := by
  induction l with
  | nil => exact ⟨false, game, rfl, Or.inl ⟨rfl, rfl⟩⟩
  | cons k rest ih =>
    obtain ⟨r, hr⟩ := check_collision_total game rotated k 0
    cases r with
    | false =>
      simp only [rotate_piece_from, hr]
      exact ⟨true, _, rfl, Or.inr ⟨rfl, k, List.mem_cons_self _ _, hr, rfl⟩⟩
    | true =>
      simp only [rotate_piece_from, hr]
      obtain ⟨r', g', h1, h2⟩ := ih
      refine ⟨r', g', h1, ?_⟩
      rcases h2 with h2 | ⟨h2, k', hk', h3⟩
      · exact Or.inl h2
      · exact Or.inr ⟨h2, k', List.mem_cons_of_mem _ hk', h3⟩

theorem kicks_small (k : Int) (h : k ∈ kicks) : -2 ≤ k ∧ k ≤ 2 := by
  simp only [kicks, List.mem_cons, List.mem_singleton, List.not_mem_nil, or_false] at h
  omega

/-- The cell positions of `merge_piece` (lines 133-134) are used only inside the
board, and there the exact sum and the 32-bit sum agree: the in-board test has
the same outcome on both, and inside the board they are equal. -/
theorem merge_sum_int (a : Int) (j : Nat) (hj : j < 4) :
    ((0 ≤ add_int a (j : Int) ∧ add_int a (j : Int) < 20) ↔
      (0 ≤ a + (j : Int) ∧ a + (j : Int) < 20)) ∧
    (0 ≤ a + (j : Int) → a + (j : Int) < 20 → add_int a (j : Int) = a + (j : Int)) := by
  unfold add_int wrap_int
  simp only [INT_MIN, INT_MAX]
  split_ifs <;> omega

/-- The kick committed by `rotate_piece` (line 207) is added to `x` without
overflow: a piece with an occupied cell that is collision-free at a kick is
within three columns of the board, and a piece without occupied cells commits
the first kick, 0. -/
theorem rotate_commit_int (game : GameState) (rotated : Piece) (game' : GameState)
    (h : rotate_piece_from game rotated kicks = some (true, game')) :
    ∃ k : Int, k ∈ kicks ∧
      game' = { game with current := { rotated with x := add_int rotated.x k } } ∧
      add_int rotated.x k = rotated.x + k := by
  by_cases hocc : ∃ i j : Fin 4, rotated.shape i j ≠ 0
  · obtain ⟨r, g1, h1, hcase⟩ := rotate_piece_from_mem game rotated kicks
    rw [h] at h1
    simp only [Option.some.injEq, Prod.mk.injEq] at h1
    obtain ⟨hr, hg⟩ := h1
    subst hr hg
    rcases hcase with ⟨hf, _⟩ | ⟨_, k, hmem, hk, hg⟩
    · cases hf
    · have hex := free_move_exact game rotated k (kicks_small k hmem) hocc hk
      exact ⟨k, hmem, by rw [hex]; exact hg, hex⟩
  · have hfree : check_collision game rotated 0 0 = some false := by
      rw [check_collision_false_iff_free]
      intro i j hij
      exact absurd ⟨i, j, hij⟩ hocc
    simp only [kicks, rotate_piece_from, hfree, Option.some.injEq, Prod.mk.injEq,
      true_and] at h
    refine ⟨0, by simp [kicks], ?_, by rw [add_int_zero, add_zero]⟩
    rw [add_int_zero, ← h, add_zero]

theorem playing_input_inv (g g' : GameState) (sym : Key) (hinv : GameInv g)
    (hplay : g.game_over = false) (h : playing_input g sym = some g') :
    GameInv g' ∧ ∃ c : Int, 0 ≤ c ∧ c ≤ 1 ∧ g'.score = add_int g.score c := by
  have hzero : ∃ c : Int, 0 ≤ c ∧ c ≤ 1 ∧ g.score = add_int g.score c :=
    ⟨0, le_refl _, by decide, (add_int_zero _).symm⟩
  have hxr := hinv.x_range
  have hyr := hinv.y_range
  cases sym with
  | SDLK_SPACE =>
    cases h
    exact ⟨hinv, hzero⟩
  | SDLK_ESCAPE =>
    cases h
    exact ⟨hinv, hzero⟩
  | other =>
    cases h
    exact ⟨hinv, hzero⟩
  | SDLK_LEFT =>
    obtain ⟨r, hr⟩ := check_collision_total g g.current (-1) 0
    cases r
    · simp only [playing_input, hr, add_int_neg_one g.current.x (by omega),
        Option.some.injEq] at h
      subst h
      have hm := moved_range g g.current (-1) 0 hxr hyr (by decide) (by decide) hinv.four hr
      refine ⟨{ started := hinv.started, score_int := hinv.score_int,
                cells := hinv.cells, type_range := hinv.type_range,
                x_range := by show -3 ≤ g.current.x - 1 ∧ g.current.x - 1 ≤ 9; omega,
                y_range := hinv.y_range, four := hinv.four, free := fun _ => ?_ },
        hzero⟩
      exact check_collision_moved g _ g.current _ (-1) 0 rfl rfl rfl (by simp) hxr hyr
        (by decide) (by decide) hr
    · simp only [playing_input, hr, Option.some.injEq] at h
      subst h
      exact ⟨hinv, hzero⟩
  | SDLK_RIGHT =>
    obtain ⟨r, hr⟩ := check_collision_total g g.current 1 0
    cases r
    · simp only [playing_input, hr, add_int_one g.current.x (by omega),
        Option.some.injEq] at h
      subst h
      have hm := moved_range g g.current 1 0 hxr hyr (by decide) (by decide) hinv.four hr
      refine ⟨{ started := hinv.started, score_int := hinv.score_int,
                cells := hinv.cells, type_range := hinv.type_range,
                x_range := by show -3 ≤ g.current.x + 1 ∧ g.current.x + 1 ≤ 9; omega,
                y_range := hinv.y_range, four := hinv.four, free := fun _ => ?_ },
        hzero⟩
      exact check_collision_moved g _ g.current _ 1 0 rfl rfl rfl (by simp) hxr hyr
        (by decide) (by decide) hr
    · simp only [playing_input, hr, Option.some.injEq] at h
      subst h
      exact ⟨hinv, hzero⟩
  | SDLK_DOWN =>
    obtain ⟨r, hr⟩ := check_collision_total g g.current 0 1
    cases r
    · simp only [playing_input, hr, add_int_one g.current.y (by omega),
        Option.some.injEq] at h
      subst h
      have hm := moved_range g g.current 0 1 hxr hyr (by decide) (by decide) hinv.four hr
      refine ⟨{ started := hinv.started,
                score_int := (add_int_in_range g.score 1 hinv.score_int (by decide)).2,
                cells := hinv.cells, type_range := hinv.type_range,
                x_range := hinv.x_range,
                y_range := by show 0 ≤ g.current.y + 1 ∧ g.current.y + 1 ≤ 19; omega,
                four := hinv.four, free := fun _ => ?_ },
        ⟨1, by decide, le_refl _, rfl⟩⟩
      exact check_collision_moved g _ g.current _ 0 1 rfl rfl (by simp) rfl hxr hyr
        (by decide) (by decide) hr
    · simp only [playing_input, hr, Option.some.injEq] at h
      subst h
      exact ⟨hinv, hzero⟩
  | SDLK_UP =>
    obtain ⟨r, g1, hrot, hcase⟩ := rotate_piece_from_mem g
      { g.current with shape := rotate_shape g.current.shape } kicks
    simp only [playing_input, rotate_piece, hrot, Option.some.injEq] at h
    subst h
    rcases hcase with ⟨_, rfl⟩ | ⟨_, k, hmem, hk, rfl⟩
    · exact ⟨hinv, hzero⟩
    · have hks := kicks_small k hmem
      have hfour : occupiedCount (rotate_shape g.current.shape) = 4 :=
        (occupiedCount_rotate g.current.shape).trans hinv.four
      have hm := moved_range g { g.current with shape := rotate_shape g.current.shape } k 0
        hxr hyr hks (by decide) hfour hk
      refine ⟨{ started := hinv.started, score_int := hinv.score_int,
                cells := hinv.cells, type_range := hinv.type_range,
                x_range := hm.1,
                y_range := hinv.y_range,
                four := hfour,
                free := fun _ => ?_ },
        hzero⟩
      exact check_collision_moved g _
        { g.current with shape := rotate_shape g.current.shape } _ k 0 rfl rfl rfl (by simp)
        hxr hyr hks (by decide) hk

theorem clear_lines_rows (g g2 : GameState) (n : Int) (h : clear_lines g = some (n, g2)) :
    ∀ r : Fin 20, g2.board r = emptyRow ∨ ∃ r' : Fin 20, g2.board r = g.board r' := by
  obtain ⟨b', h1, h2⟩ := clear_lines_fuel_eq 41 (le_refl _) g
  have h1' : clear_lines g = _ := h1
  rw [h1'] at h
  simp only [Option.some.injEq, Prod.mk.injEq] at h
  obtain ⟨_, rfl⟩ := h
  intro r
  have hmem : b' r ∈ boardRows b' := by
    simp only [boardRows, List.mem_ofFn, Set.mem_range]
    exact ⟨r, rfl⟩
  rw [h2, List.mem_append] at hmem
  rcases hmem with hm | hm
  · exact Or.inl (List.eq_of_mem_replicate hm)
  · have := (List.mem_filter.mp hm).1
    simp only [boardRows, List.mem_ofFn, Set.mem_range] at this
    obtain ⟨r', hr'⟩ := this
    exact Or.inr ⟨r', hr'.symm⟩

theorem clear_lines_cells (g g2 : GameState) (n : Int) (h : clear_lines g = some (n, g2))
    (hc : ∀ (r : Fin 20) (c : Fin 10), 0 ≤ g.board r c ∧ g.board r c ≤ 7) :
    ∀ (r : Fin 20) (c : Fin 10), 0 ≤ g2.board r c ∧ g2.board r c ≤ 7 := by
  intro r c
  rcases clear_lines_rows g g2 n h r with he | ⟨r', hr'⟩
  · rw [he]
    show (0 : Int) ≤ 0 ∧ (0 : Int) ≤ 7
    decide
  · rw [hr']
    exact hc r' c

theorem mergedBoard_cells (p : Piece) (b : Board) (l : List (Fin 4 × Fin 4))
    (ht : 0 ≤ p.type ∧ p.type ≤ 6)
    (hc : ∀ (r : Fin 20) (c : Fin 10), 0 ≤ b r c ∧ b r c ≤ 7) :
    ∀ (r : Fin 20) (c : Fin 10), 0 ≤ mergedBoard p b l r c ∧ mergedBoard p b l r c ≤ 7 := by
  intro r c
  unfold mergedBoard
  split_ifs
  · omega
  · exact hc r c

theorem fall_step_inv (s s1 : MainState) (rnd : Nat) (hinv : GameInv s.game)
    (h : fall_step s rnd = some s1) :
    GameInv s1.game ∧
      ∃ c : Int, 0 ≤ c ∧ c ≤ 2000 ∧ s1.game.score = add_int s.game.score c := by
  obtain ⟨r, hr⟩ := check_collision_total s.game s.game.current 0 1
  cases r with
  | false =>
    have hyr := hinv.y_range
    rw [fall_step_move s rnd hr, add_int_one s.game.current.y (by omega)] at h
    cases h
    have hm := moved_range s.game s.game.current 0 1 hinv.x_range hinv.y_range (by decide)
      (by decide) hinv.four hr
    refine ⟨{ started := hinv.started, score_int := hinv.score_int,
              cells := hinv.cells, type_range := hinv.type_range,
              x_range := hinv.x_range, y_range := hm.2,
              four := hinv.four, free := fun _ => ?_ },
      ⟨0, le_refl _, by decide, (add_int_zero _).symm⟩⟩
    exact check_collision_moved s.game _ s.game.current _ 0 1 rfl rfl (by simp) rfl
      hinv.x_range hinv.y_range (by decide) (by decide) hr
  | true =>
    obtain ⟨n, g2, h2, _, hn0, hn20, hscore, _, _, _, hst, _⟩ := clear_lines_frame
      { s.game with board := mergedBoard s.game.current s.game.board cells4x4 }
    have hcells := clear_lines_cells _ g2 n h2
      (mergedBoard_cells s.game.current s.game.board cells4x4 hinv.type_range hinv.cells)
    have hscore' : g2.score = add_int s.game.score (n * 100) := hscore
    have hst' : g2.game_started = true := hst.trans hinv.started
    have hpts : INT_MIN ≤ n * 100 ∧ n * 100 ≤ INT_MAX := by
      simp only [INT_MIN, INT_MAX]
      omega
    have hsi : INT_MIN ≤ g2.score ∧ g2.score ≤ INT_MAX := by
      rw [hscore']
      exact (add_int_in_range s.game.score (n * 100) hinv.score_int hpts).2
    have hsc : ∃ c : Int, 0 ≤ c ∧ c ≤ 2000 ∧ g2.score = add_int s.game.score c :=
      ⟨n * 100, by omega, by omega, hscore'⟩
    have htype : 0 ≤ ((rnd % 7 : Nat) : Int) ∧ ((rnd % 7 : Nat) : Int) ≤ 6 := by omega
    have hfour : occupiedCount (SHAPES ⟨rnd % 7, Nat.mod_lt _ (by decide)⟩) = 4 :=
      shapes_four_cells _
    have hx3 : (-3 : Int) ≤ 3 ∧ (3 : Int) ≤ 9 := by decide
    have hy0 : (0 : Int) ≤ 0 ∧ (0 : Int) ≤ 19 := by decide
    have hstep := fall_step_land s rnd _ g2 n _ hr (merge_piece_eq s.game) h2
      (init_piece_mod rnd)
    rw [hstep] at h
    split_ifs at h with hc hs
    · cases h
      exact ⟨{ started := hst', score_int := hsi,
               cells := hcells, type_range := htype, x_range := hx3, y_range := hy0,
               four := hfour, free := fun hf => by cases hf }, hsc⟩
    · cases h
      exact ⟨{ started := hst', score_int := hsi,
               cells := hcells, type_range := htype, x_range := hx3, y_range := hy0,
               four := hfour, free := fun hf => by cases hf }, hsc⟩
    · cases h
      refine ⟨{ started := hst', score_int := hsi,
                cells := hcells, type_range := htype, x_range := hx3, y_range := hy0,
                four := hfour, free := fun _ => ?_ }, hsc⟩
      obtain ⟨r', hr'⟩ := check_collision_total
        { g2 with current :=
            { shape := SHAPES ⟨rnd % 7, Nat.mod_lt _ (by decide)⟩
              x := 3
              y := 0
              type := ((rnd % 7 : Nat) : Int) } }
        { shape := SHAPES ⟨rnd % 7, Nat.mod_lt _ (by decide)⟩
          x := 3
          y := 0
          type := ((rnd % 7 : Nat) : Int) } 0 0
      cases r'
      · exact hr'
      · exact absurd hr' hc

theorem game_logic_inv (s s' : MainState) (current_time rnd : Nat) (hinv : GameInv s.game)
    (h : game_logic s current_time rnd = some s') :
    GameInv s'.game ∧
      ∃ c : Int, 0 ≤ c ∧ c ≤ 2000 ∧ s'.game.score = add_int s.game.score c := by
  have hzero : ∃ c : Int, 0 ≤ c ∧ c ≤ 2000 ∧ s.game.score = add_int s.game.score c :=
    ⟨0, le_refl _, by decide, (add_int_zero _).symm⟩
  cases hover : s.game.game_over with
  | true =>
    simp only [game_logic, hover, Bool.not_true, Bool.and_false, Bool.false_eq_true,
      if_false, Option.some.injEq] at h
    subst h
    exact ⟨hinv, hzero⟩
  | false =>
    cases hdue : fall_due s.game current_time with
    | false =>
      rw [game_logic_not_due s current_time rnd hdue] at h
      cases h
      exact ⟨hinv, hzero⟩
    | true =>
      rw [game_logic_due s current_time rnd hinv.started hover hdue] at h
      obtain ⟨s1, h1⟩ := fall_step_total s rnd
      rw [h1] at h
      cases h
      obtain ⟨hi, hsc⟩ := fall_step_inv s s1 rnd hinv h1
      refine ⟨{ started := hi.started, score_int := hi.score_int, cells := hi.cells,
                type_range := hi.type_range, x_range := hi.x_range, y_range := hi.y_range,
                four := hi.four, free := fun hf => ?_ }, hsc⟩
      dsimp only at hf ⊢
      exact (check_collision_from_board _ s1.game s1.game.current 0 0 rfl cells4x4).trans
        (hi.free hf)

theorem handle_event_inv (s s' : MainState) (e : Event) (hinv : GameInv s.game)
    (h : handle_event s e = some s') :
    GameInv s'.game ∧
      ((s.game.game_over = true ∧ s'.game.score = 0) ∨
        ∃ c : Int, 0 ≤ c ∧ c ≤ 2000 ∧ s'.game.score = add_int s.game.score c) := by
  have hzero : ∃ c : Int, 0 ≤ c ∧ c ≤ 2000 ∧ s.game.score = add_int s.game.score c :=
    ⟨0, le_refl _, by decide, (add_int_zero _).symm⟩
  cases e with
  | SDL_QUIT =>
    cases h
    exact ⟨hinv, Or.inr hzero⟩
  | other =>
    cases h
    exact ⟨hinv, Or.inr hzero⟩
  | SDL_KEYDOWN sym ticks rnd =>
    cases hover : s.game.game_over with
    | true =>
      by_cases hsym : sym = Key.SDLK_SPACE
      · simp only [handle_event, handle_keydown, hinv.started, hover, hsym, Bool.not_true,
          Bool.false_eq_true, if_false, if_true, reset_game_eq] at h
        cases h
        exact ⟨reset_game_inv s.game _ ticks rnd (reset_game_eq s.game ticks rnd),
          Or.inl ⟨rfl, rfl⟩⟩
      · simp only [handle_event, handle_keydown, hinv.started, hover, hsym, Bool.not_true,
          Bool.false_eq_true, if_false, if_true, Option.some.injEq] at h
        subst h
        exact ⟨hinv, Or.inr hzero⟩
    | false =>
      obtain ⟨g', hg', _⟩ := playing_input_frame s.game sym
      simp only [handle_event, handle_keydown, hinv.started, hover, Bool.not_true,
        Bool.false_eq_true, if_false, hg', Option.some.injEq] at h
      subst h
      obtain ⟨hi, c, hc0, hc1, hsc⟩ := playing_input_inv s.game g' sym hinv hover hg'
      exact ⟨hi, Or.inr ⟨c, hc0, by omega, hsc⟩⟩

theorem apply_input_inv (s s' : MainState) (i : Input) (hinv : GameInv s.game)
    (h : apply_input s i = some s') :
    GameInv s'.game ∧
      ((s.game.game_over = true ∧ s'.game.score = 0) ∨
        ∃ c : Int, 0 ≤ c ∧ c ≤ 2000 ∧ s'.game.score = add_int s.game.score c) := by
  cases i with
  | event e => exact handle_event_inv s s' e hinv h
  | tick current_time rnd =>
    obtain ⟨hi, hsc⟩ := game_logic_inv s s' current_time rnd hinv h
    exact ⟨hi, Or.inr hsc⟩

theorem run_inputs_inv (inputs : List Input) :
    ∀ s s' : MainState, GameInv s.game → run_inputs s inputs = some s' → GameInv s'.game := by
  induction inputs with
  | nil =>
    intro s s' hinv h
    cases h
    exact hinv
  | cons i rest ih =>
    intro s s' hinv h
    simp only [run_inputs] at h
    cases h1 : apply_input s i with
    | none =>
      rw [h1] at h
      cases h
    | some s1 =>
      rw [h1] at h
      exact ih s1 s' (apply_input_inv s s1 i hinv h1).1 h

theorem reachable_inv (s : MainState) (h : ReachableFromReset s) : GameInv s.game := by
  obtain ⟨s0, ticks, rnd, g, inputs, hreset, hrun⟩ := h
  exact run_inputs_inv inputs _ s (reset_game_inv s0.game g ticks rnd hreset) hrun

/-- The score after a run that starts at a non-negative score and is too short
to reach `INT_MAX`: at most 2000 points per input. -/
theorem run_inputs_score (inputs : List Input) :
    ∀ s s' : MainState, GameInv s.game → run_inputs s inputs = some s' →
      0 ≤ s.game.score → s.game.score + 2000 * (inputs.length : Int) ≤ 2147483647 →
      0 ≤ s'.game.score ∧ s'.game.score ≤ s.game.score + 2000 * (inputs.length : Int) := by
  induction inputs with
  | nil =>
    intro s s' _ h h0 _
    cases h
    simp only [List.length_nil, Nat.cast_zero, mul_zero, add_zero]
    exact ⟨h0, le_refl _⟩
  | cons i rest ih =>
    intro s s' hinv h h0 hlen
    simp only [run_inputs] at h
    simp only [List.length_cons, Nat.cast_add, Nat.cast_one] at hlen ⊢
    cases h1 : apply_input s i with
    | none =>
      rw [h1] at h
      cases h
    | some s1 =>
      rw [h1] at h
      obtain ⟨hi, hsc⟩ := apply_input_inv s s1 i hinv h1
      have hs1 : 0 ≤ s1.game.score ∧ s1.game.score ≤ s.game.score + 2000 := by
        rcases hsc with ⟨_, hz⟩ | ⟨c, hc0, hc1, hc⟩
        · omega
        · rw [hc, add_int_exact s.game.score c
            (by simp only [INT_MIN, INT_MAX]; omega)]
          omega
      have := ih s1 s' hi h hs1.1 (by omega)
      omega

theorem occupied_cell_facts (g : GameState)
    (hx : -3 ≤ g.current.x ∧ g.current.x ≤ 9) (hy : 0 ≤ g.current.y ∧ g.current.y ≤ 19)
    (hfree : check_collision g g.current 0 0 = some false) (i j : Fin 4)
    (hocc : g.current.shape i j ≠ 0) :
    0 ≤ g.current.y + (i.val : Int) ∧ g.current.y + (i.val : Int) < 20 ∧
    0 ≤ g.current.x + (j.val : Int) ∧ g.current.x + (j.val : Int) < 10 ∧
    readCell g.board (g.current.y + (i.val : Int)) (g.current.x + (j.val : Int)) = some 0 := by
  have h := (cellFree_small g g.current 0 0 i j (by omega) (by omega) (by omega)
    (by omega)).mp ((check_collision_false_iff_free g g.current 0 0).mp hfree i j hocc)
  simp only [add_zero] at h
  have hy' : 0 ≤ g.current.y + (i.val : Int) := by omega
  exact ⟨hy', h.2.2.1, h.1, h.2.1, h.2.2.2 hy'⟩

theorem mergedBoard_written (g : GameState) (i j : Fin 4) (r : Fin 20) (c : Fin 10)
    (hocc : g.current.shape i j ≠ 0)
    (hr : g.current.y + (i.val : Int) = (r.val : Int))
    (hc : g.current.x + (j.val : Int) = (c.val : Int)) :
    mergedBoard g.current g.board cells4x4 r c = g.current.type + 1 := by
  unfold mergedBoard
  rw [if_pos ⟨(i, j), mem_cells4x4 i j, hocc, hr, hc⟩]

theorem mergedBoard_kept (g : GameState) (r : Fin 20) (c : Fin 10)
    (h : ¬ ∃ i j : Fin 4, g.current.shape i j ≠ 0 ∧
      g.current.y + (i.val : Int) = (r.val : Int) ∧
      g.current.x + (j.val : Int) = (c.val : Int)) :
    mergedBoard g.current g.board cells4x4 r c = g.board r c := by
  unfold mergedBoard
  rw [if_neg]
  rintro ⟨⟨i, j⟩, _, h'⟩
  exact h ⟨i, j, h'⟩

theorem readCell_fin (b : Board) (r : Fin 20) (c : Fin 10) :
    readCell b (r.val : Int) (c.val : Int) = some (b r c) := by
  have hr := r.isLt
  have hc := c.isLt
  rw [readCell_of_range _ _ _ (by omega)]
  simp

theorem merge_changes_count (g : GameState)
    (hx : -3 ≤ g.current.x ∧ g.current.x ≤ 9) (hy : 0 ≤ g.current.y ∧ g.current.y ≤ 19)
    (ht : 0 ≤ g.current.type)
    (hfree : check_collision g g.current 0 0 = some false) :
    (Finset.univ.filter (fun rc : Fin 20 × Fin 10 =>
        mergedBoard g.current g.board cells4x4 rc.1 rc.2 ≠ g.board rc.1 rc.2)).card
      = occupiedCount g.current.shape := by
  symm
  unfold occupiedCount
  have hcell : ∀ ij : Fin 4 × Fin 4,
      ij ∈ Finset.univ.filter (fun ij : Fin 4 × Fin 4 => g.current.shape ij.1 ij.2 ≠ 0) →
      0 ≤ g.current.y + (ij.1.val : Int) ∧ g.current.y + (ij.1.val : Int) < 20 ∧
      0 ≤ g.current.x + (ij.2.val : Int) ∧ g.current.x + (ij.2.val : Int) < 10 ∧
      readCell g.board (g.current.y + (ij.1.val : Int)) (g.current.x + (ij.2.val : Int))
        = some 0 :=
    fun ij hij => occupied_cell_facts g hx hy hfree ij.1 ij.2 (Finset.mem_filter.mp hij).2
  apply Finset.card_bij (fun ij hij =>
    ((⟨(g.current.y + (ij.1.val : Int)).toNat, by have := hcell ij hij; omega⟩ : Fin 20),
     (⟨(g.current.x + (ij.2.val : Int)).toNat, by have := hcell ij hij; omega⟩ : Fin 10)))
  · intro ij hij
    have hc := hcell ij hij
    have hocc := (Finset.mem_filter.mp hij).2
    simp only [Finset.mem_filter, Finset.mem_univ, true_and]
    rw [mergedBoard_written g ij.1 ij.2 _ _ hocc (by simp only; omega) (by simp only; omega)]
    have h0 := hc.2.2.2.2
    rw [readCell_of_range _ _ _ ⟨hc.1, hc.2.1, hc.2.2.1, hc.2.2.2.1⟩] at h0
    simp only [Option.some.injEq] at h0
    rw [h0]
    omega
  · rintro ⟨a, b⟩ ha ⟨c, d⟩ hc h
    have h1 := hcell _ ha
    have h2 := hcell _ hc
    simp only [Prod.mk.injEq, Fin.mk.injEq] at h
    exact Prod.ext (Fin.ext (by simp only at h1 h2 ⊢; omega))
      (Fin.ext (by simp only at h1 h2 ⊢; omega))
  · rintro ⟨r, c⟩ hrc
    simp only [Finset.mem_filter, Finset.mem_univ, true_and] at hrc
    by_cases hex : ∃ i j : Fin 4, g.current.shape i j ≠ 0 ∧
        g.current.y + (i.val : Int) = (r.val : Int) ∧
        g.current.x + (j.val : Int) = (c.val : Int)
    · obtain ⟨i, j, hocc, hr, hc⟩ := hex
      refine ⟨(i, j), by simp [hocc], ?_⟩
      exact Prod.ext (Fin.ext (by simp only; omega)) (Fin.ext (by simp only; omega))
    · exact absurd (mergedBoard_kept g r c hex) hrc

theorem playedState_reachable : ReachableFromReset playedState :=
  ⟨idleState, 7000, 9, freshGame 100, playedInputs, reset_game_eq _ _ _, rfl⟩

theorem handle_event_total (s : MainState) (e : Event) :
    ∃ s' : MainState, handle_event s e = some s' := by
  cases e with
  | SDL_QUIT => exact ⟨_, rfl⟩
  | other => exact ⟨_, rfl⟩
  | SDL_KEYDOWN sym ticks rnd =>
    obtain ⟨g', hg', _⟩ := playing_input_frame s.game sym
    simp only [handle_event, handle_keydown, reset_game_eq, hg']
    split_ifs <;> exact ⟨_, rfl⟩

theorem game_logic_total (s : MainState) (current_time rnd : Nat) :
    ∃ s' : MainState, game_logic s current_time rnd = some s' := by
  obtain ⟨s1, h1⟩ := fall_step_total s rnd
  simp only [game_logic, h1]
  split_ifs <;> exact ⟨_, rfl⟩

theorem apply_input_total (s : MainState) (i : Input) :
    ∃ s' : MainState, apply_input s i = some s' := by
  cases i with
  | event e => exact handle_event_total s e
  | tick current_time rnd => exact game_logic_total s current_time rnd

/-! ## The score past `INT_MAX` -/

theorem sameState_eq (s t : MainState) (h : sameState s t = true) : s = t := by
  obtain ⟨hb, hs, hx, hy, ht, h1, h2, h3, h4, h5, h6, h7, h8⟩ := of_decide_eq_true h
  obtain ⟨⟨b, ⟨sh, x, y, ty⟩, sc, hi, ov, st, lf, fs⟩, ru, sa⟩ := s
  obtain ⟨⟨b', ⟨sh', x', y', ty'⟩, sc', hi', ov', st', lf', fs'⟩, ru', sa'⟩ := t
  simp only at hb hs hx hy ht h1 h2 h3 h4 h5 h6 h7 h8
  have eb : b = b' := funext fun r => funext fun c => hb r c
  have es : sh = sh' := funext fun i => funext fun j => hs i j
  subst eb es hx hy ht h1 h2 h3 h4 h5 h6 h7 h8
  rfl

theorem setScore_self (s : MainState) : setScore s s.game.score = s := rfl

theorem wrap_int_id (k : Int) (h : INT_MIN ≤ k ∧ k ≤ INT_MAX) : wrap_int k = k := by
  unfold wrap_int
  simp only [INT_MIN, INT_MAX] at h
  omega

theorem rotate_piece_from_score (g : GameState) (k : Int) (rot : Piece) (l : List Int) :
    rotate_piece_from { g with score := k } rot l =
      (rotate_piece_from g rot l).map (fun r => (r.1, { r.2 with score := k })) := by
  induction l with
  | nil => rfl
  | cons d rest ih =>
    have hc : check_collision { g with score := k } rot d 0 = check_collision g rot d 0 :=
      check_collision_board _ _ _ _ _ rfl
    obtain ⟨r, hr⟩ := check_collision_total g rot d 0
    cases r with
    | false =>
      simp only [rotate_piece_from, hc, hr]
      rfl
    | true =>
      simp only [rotate_piece_from, hc, hr]
      exact ih

/-- The key handler of the Playing phase does not read the score: started from
another score it takes the same branch and adds the same points. -/
theorem playing_input_score (g g' : GameState) (sym : Key)
    (h : playing_input g sym = some g') :
    ∃ c : Int, 0 ≤ c ∧ c ≤ 1 ∧
      ∀ k : Int, playing_input { g with score := k } sym
        = some { g' with score := add_int k c } := by
  cases sym with
  | SDLK_SPACE =>
    cases h
    exact ⟨0, le_refl _, by decide, fun k => by rw [add_int_zero]; rfl⟩
  | SDLK_ESCAPE =>
    cases h
    exact ⟨0, le_refl _, by decide, fun k => by rw [add_int_zero]; rfl⟩
  | other =>
    cases h
    exact ⟨0, le_refl _, by decide, fun k => by rw [add_int_zero]; rfl⟩
  | SDLK_LEFT =>
    have hc : ∀ k, check_collision { g with score := k } g.current (-1) 0
        = check_collision g g.current (-1) 0 := fun k => check_collision_board _ _ _ _ _ rfl
    obtain ⟨r, hr⟩ := check_collision_total g g.current (-1) 0
    cases r
    · simp only [playing_input, hr, Option.some.injEq] at h
      subst h
      refine ⟨0, le_refl _, by decide, fun k => ?_⟩
      simp only [playing_input, hc k, hr, add_int_zero]
    · simp only [playing_input, hr, Option.some.injEq] at h
      subst h
      refine ⟨0, le_refl _, by decide, fun k => ?_⟩
      simp only [playing_input, hc k, hr, add_int_zero]
  | SDLK_RIGHT =>
    have hc : ∀ k, check_collision { g with score := k } g.current 1 0
        = check_collision g g.current 1 0 := fun k => check_collision_board _ _ _ _ _ rfl
    obtain ⟨r, hr⟩ := check_collision_total g g.current 1 0
    cases r
    · simp only [playing_input, hr, Option.some.injEq] at h
      subst h
      refine ⟨0, le_refl _, by decide, fun k => ?_⟩
      simp only [playing_input, hc k, hr, add_int_zero]
    · simp only [playing_input, hr, Option.some.injEq] at h
      subst h
      refine ⟨0, le_refl _, by decide, fun k => ?_⟩
      simp only [playing_input, hc k, hr, add_int_zero]
  | SDLK_DOWN =>
    have hc : ∀ k, check_collision { g with score := k } g.current 0 1
        = check_collision g g.current 0 1 := fun k => check_collision_board _ _ _ _ _ rfl
    obtain ⟨r, hr⟩ := check_collision_total g g.current 0 1
    cases r
    · simp only [playing_input, hr, Option.some.injEq] at h
      subst h
      refine ⟨1, by decide, le_refl _, fun k => ?_⟩
      simp only [playing_input, hc k, hr]
    · simp only [playing_input, hr, Option.some.injEq] at h
      subst h
      refine ⟨0, le_refl _, by decide, fun k => ?_⟩
      simp only [playing_input, hc k, hr, add_int_zero]
  | SDLK_UP =>
    obtain ⟨r, g1, hrot, _⟩ := rotate_piece_from_cases g
      { g.current with shape := rotate_shape g.current.shape } kicks
    simp only [playing_input, rotate_piece, hrot, Option.some.injEq] at h
    subst h
    refine ⟨0, le_refl _, by decide, fun k => ?_⟩
    simp only [playing_input, rotate_piece, rotate_piece_from_score, hrot, Option.map_some',
      add_int_zero]

/-- The fall step reads the score only when the game ends: when it does not end
the game, it takes the same branch from any other score and adds the same
points. -/
theorem fall_step_score (s s1 : MainState) (rnd : Nat) (h : fall_step s rnd = some s1)
    (hov1 : s1.game.game_over = false) :
    ∃ c : Int, 0 ≤ c ∧ c ≤ 2000 ∧
      ∀ k : Int, fall_step (setScore s k) rnd = some (setScore s1 (add_int k c)) := by
  obtain ⟨r, hr⟩ := check_collision_total s.game s.game.current 0 1
  have hrk : ∀ k, check_collision (setScore s k).game (setScore s k).game.current 0 1
      = some r := fun k => (check_collision_board _ _ _ _ _ rfl).trans hr
  cases r with
  | false =>
    rw [fall_step_move s rnd hr] at h
    cases h
    refine ⟨0, le_refl _, by decide, fun k => ?_⟩
    rw [fall_step_move _ rnd (hrk k), add_int_zero]
    rfl
  | true =>
    obtain ⟨b', hcl, hrows⟩ := clear_lines_fuel_eq 41 (le_refl _)
      { s.game with board := mergedBoard s.game.current s.game.board cells4x4 }
    have hle : (boardRows (mergedBoard s.game.current s.game.board cells4x4)).countP rowFull
        ≤ 20 := by
      have := List.countP_le_length rowFull
        (l := boardRows (mergedBoard s.game.current s.game.board cells4x4))
      rw [boardRows_length] at this
      exact this
    have hstep := fall_step_land s rnd _ _ _ _ hr (merge_piece_eq s.game) hcl
      (init_piece_mod rnd)
    rw [hstep] at h
    split_ifs at h with hc hs
    · cases h
      cases hov1
    · cases h
      cases hov1
    · cases h
      refine ⟨(((boardRows (mergedBoard s.game.current s.game.board cells4x4)).countP
        rowFull : Nat) : Int) * 100, by omega, by omega, fun k => ?_⟩
      obtain ⟨bk, hclk, hrowsk⟩ := clear_lines_fuel_eq 41 (le_refl _)
          { (setScore s k).game with
          board := mergedBoard (setScore s k).game.current (setScore s k).game.board
            cells4x4 }
      have hbk : bk = b' := List.ofFn_injective (hrowsk.trans hrows.symm)
      subst hbk
      have hstepk := fall_step_land (setScore s k) rnd _ _ _ _ (hrk k)
        (merge_piece_eq (setScore s k).game) hclk (init_piece_mod rnd)
      rw [hstepk, if_neg]
      · rfl
      · intro hcon
        exact hc ((check_collision_board _ _ _ _ _ rfl).trans hcon)

theorem game_logic_score (s s' : MainState) (t rnd : Nat)
    (h : game_logic s t rnd = some s')
    (hst : s.game.game_started = true) (hov : s.game.game_over = false)
    (hov' : s'.game.game_over = false) :
    ∃ c : Int, 0 ≤ c ∧ c ≤ 2000 ∧
      ∀ k : Int, game_logic (setScore s k) t rnd = some (setScore s' (add_int k c)) := by
  cases hdue : fall_due s.game t with
  | false =>
    rw [game_logic_not_due s t rnd hdue] at h
    cases h
    refine ⟨0, le_refl _, by decide, fun k => ?_⟩
    rw [game_logic_not_due (setScore s k) t rnd hdue, add_int_zero]
  | true =>
    rw [game_logic_due s t rnd hst hov hdue] at h
    obtain ⟨s1, h1⟩ := fall_step_total s rnd
    rw [h1] at h
    cases h
    obtain ⟨c, hc0, hc1, hk⟩ := fall_step_score s s1 rnd h1 hov'
    refine ⟨c, hc0, hc1, fun k => ?_⟩
    rw [game_logic_due (setScore s k) t rnd hst hov hdue, hk k]
    rfl

theorem handle_event_score (s s' : MainState) (e : Event)
    (h : handle_event s e = some s')
    (hst : s.game.game_started = true) (hov : s.game.game_over = false) :
    ∃ c : Int, 0 ≤ c ∧ c ≤ 2000 ∧
      ∀ k : Int, handle_event (setScore s k) e = some (setScore s' (add_int k c)) := by
  cases e with
  | SDL_QUIT =>
    cases h
    exact ⟨0, le_refl _, by decide, fun k => by rw [add_int_zero]; rfl⟩
  | other =>
    cases h
    exact ⟨0, le_refl _, by decide, fun k => by rw [add_int_zero]; rfl⟩
  | SDL_KEYDOWN sym ticks rnd =>
    obtain ⟨g', hg', _⟩ := playing_input_frame s.game sym
    simp only [handle_event, handle_keydown, hst, hov, Bool.not_true,
      Bool.false_eq_true, if_false, hg', Option.some.injEq] at h
    subst h
    obtain ⟨c, hc0, hc1, hk⟩ := playing_input_score s.game g' sym hg'
    refine ⟨c, hc0, by omega, fun k => ?_⟩
    have hk' : playing_input (setScore s k).game sym
        = some { g' with score := add_int k c } := hk k
    have hst' : (setScore s k).game.game_started = true := hst
    have hov' : (setScore s k).game.game_over = false := hov
    simp only [handle_event, handle_keydown, hst', hov', Bool.not_true,
      Bool.false_eq_true, if_false, hk']
    rfl

theorem apply_input_score (s s' : MainState) (i : Input)
    (h : apply_input s i = some s')
    (hst : s.game.game_started = true) (hov : s.game.game_over = false)
    (hov' : s'.game.game_over = false) :
    ∃ c : Int, 0 ≤ c ∧ c ≤ 2000 ∧
      ∀ k : Int, apply_input (setScore s k) i = some (setScore s' (add_int k c)) := by
  cases i with
  | event e => exact handle_event_score s s' e h hst hov
  | tick t rnd => exact game_logic_score s s' t rnd h hst hov hov'

/-- A run that stays in the Playing phase is the same run from every other
`int` score, and adds the same points on 32 bits. -/
theorem play_inputs_shift (inputs : List Input) :
    ∀ s s' : MainState, play_inputs s inputs = some s' →
      ∃ C : Int, 0 ≤ C ∧ C ≤ 2000 * (inputs.length : Int) ∧
        ∀ k : Int, INT_MIN ≤ k ∧ k ≤ INT_MAX →
          run_inputs (setScore s k) inputs = some (setScore s' (wrap_int (k + C))) := by
  induction inputs with
  | nil =>
    intro s s' h
    cases h
    refine ⟨0, le_refl _, by simp, fun k hk => ?_⟩
    rw [add_zero, wrap_int_id k hk]
    rfl
  | cons i rest ih =>
    intro s s' h
    simp only [play_inputs] at h
    split_ifs at h with hplay
    simp only [Bool.and_eq_true, Bool.not_eq_true'] at hplay
    cases h1 : apply_input s i with
    | none =>
      rw [h1] at h
      cases h
    | some s1 =>
      rw [h1] at h
      simp only at h
      split_ifs at h with hov1
      have hov1' : s1.game.game_over = false := by
        cases hq : s1.game.game_over
        · rfl
        · exact absurd hq hov1
      obtain ⟨c, hc0, hc1, hk1⟩ := apply_input_score s s1 i h1 hplay.1 hplay.2 hov1'
      obtain ⟨C, hC0, hC1, hkC⟩ := ih s1 s' h
      refine ⟨c + C, by omega, ?_, fun k hk => ?_⟩
      · simp only [List.length_cons, Nat.cast_add, Nat.cast_one]
        omega
      · have hcr : INT_MIN ≤ c ∧ c ≤ INT_MAX := by
          simp only [INT_MIN, INT_MAX]
          omega
        obtain ⟨he, hr⟩ := add_int_in_range k c hk hcr
        simp only [run_inputs, hk1 k]
        rw [hkC (add_int k c) hr, he]
        congr 2
        unfold wrap_int
        omega

theorem play_inputs_run (inputs : List Input) :
    ∀ s s' : MainState, play_inputs s inputs = some s' → run_inputs s inputs = some s' := by
  induction inputs with
  | nil =>
    intro s s' h
    exact h
  | cons i rest ih =>
    intro s s' h
    simp only [play_inputs] at h
    split_ifs at h with hplay
    cases h1 : apply_input s i with
    | none =>
      rw [h1] at h
      cases h
    | some s1 =>
      rw [h1] at h
      simp only at h
      split_ifs at h with hov1
      simp only [run_inputs, h1]
      exact ih s1 s' h

/-- A run of at most 1000 inputs that stays in the Playing phase and starts at
score 0, started instead at the `int` score `k`: the same final state, with the
points of the run added to `k` on 32 bits. -/
theorem play_inputs_score (inputs : List Input) (s s' : MainState)
    (h : play_inputs s inputs = some s') (hlen : inputs.length ≤ 1000)
    (hs : s.game.score = 0) :
    ∀ k : Int, INT_MIN ≤ k ∧ k ≤ INT_MAX →
      run_inputs (setScore s k) inputs = some (setScore s' (wrap_int (k + s'.game.score))) := by
  obtain ⟨C, hC0, hC1, hk⟩ := play_inputs_shift inputs s s' h
  have h0 := hk 0 (by decide)
  have hlen' : (inputs.length : Int) ≤ 1000 := by exact_mod_cast hlen
  have hw : wrap_int (0 + C) = C := by
    rw [zero_add]
    exact wrap_int_id _ (by
      simp only [INT_MIN, INT_MAX]
      omega)
  have e := setScore_self s
  rw [hs] at e
  rw [e, play_inputs_run inputs s s' h, hw] at h0
  have hC : s'.game.score = C := congrArg (fun t => t.game.score) (Option.some.inj h0)
  rw [hC]
  exact hk

theorem run_inputs_append (a b : List Input) :
    ∀ s : MainState, run_inputs s (a ++ b) = (run_inputs s a).bind (fun s1 => run_inputs s1 b) := by
  induction a with
  | nil =>
    intro s
    rfl
  | cons i rest ih =>
    intro s
    simp only [List.cons_append, run_inputs]
    cases apply_input s i with
    | none => rfl
    | some s1 => exact ih s1

theorem run_inputs_single (s : MainState) (i : Input) :
    run_inputs s [i] = apply_input s i := by
  simp only [run_inputs]
  cases apply_input s i <;> rfl

theorem map_sameState (o : Option MainState) (t : MainState)
    (h : o.map (fun s => sameState s t) = some true) : o = some t := by
  cases o with
  | none => cases h
  | some s =>
    simp only [Option.map_some', Option.some.injEq] at h
    rw [sameState_eq s t h]

theorem wrap_int_range (n : Int) : INT_MIN ≤ wrap_int n ∧ wrap_int n ≤ INT_MAX := by
  unfold wrap_int
  simp only [INT_MIN, INT_MAX]
  omega

set_option maxRecDepth 1000000 in
set_option maxHeartbeats 40000000 in
theorem place_play_zero :
    (play_inputs (cycleState 0) placeInputs).map (fun s => sameState s (lastState 0))
      = some true := by
  decide

set_option maxRecDepth 1000000 in
set_option maxHeartbeats 40000000 in
theorem last_play_zero :
    (play_inputs (lastState 0) [Input.tick 2000 1]).map
      (fun s => sameState s (cycleState 200)) = some true := by
  decide

/-- From `cycleState k`, for every `int` score `k`, the inputs `placeInputs` lead
to `lastState k`: no point is scored. -/
theorem place_run (k : Int) (hk : INT_MIN ≤ k ∧ k ≤ INT_MAX) :
    run_inputs (cycleState k) placeInputs = some (lastState k) := by
  have h := play_inputs_score placeInputs (cycleState 0) (lastState 0)
    (map_sameState _ _ place_play_zero) (by decide) rfl k hk
  have e : wrap_int (k + (lastState 0).game.score) = k := by
    show wrap_int (k + 0) = k
    rw [add_zero, wrap_int_id k hk]
  rw [e] at h
  exact h

/-- From `lastState k`, for every `int` score `k`, a fall tick lands the piece,
clears two rows and leads to `cycleState` with 200 added to `k` on 32 bits. -/
theorem last_step (k : Int) (hk : INT_MIN ≤ k ∧ k ≤ INT_MAX) :
    apply_input (lastState k) (Input.tick 2000 1) = some (cycleState (wrap_int (k + 200))) := by
  have h := play_inputs_score [Input.tick 2000 1] (lastState 0) (cycleState 200)
    (map_sameState _ _ last_play_zero) (by decide) rfl k hk
  rw [run_inputs_single] at h
  exact h

theorem cycle_run (k : Int) (hk : INT_MIN ≤ k ∧ k ≤ INT_MAX) :
    run_inputs (cycleState k) cycleInputs = some (cycleState (wrap_int (k + 200))) := by
  rw [cycleInputs, run_inputs_append, place_run k hk]
  simp only [Option.some_bind]
  rw [run_inputs_single]
  exact last_step k hk

/-- After `m` cycles from `cycleState k` the state is `cycleState` again, with
`200 * m` added to the score on 32 bits. -/
theorem cycles_run (m : Nat) :
    ∀ k : Int, INT_MIN ≤ k ∧ k ≤ INT_MAX →
      run_inputs (cycleState k) (cycles m) = some (cycleState (wrap_int (k + 200 * (m : Int)))) := by
  induction m with
  | zero =>
    intro k hk
    simp only [cycles, run_inputs, Nat.cast_zero, mul_zero, add_zero]
    rw [wrap_int_id k hk]
  | succ m ih =>
    intro k hk
    rw [cycles, run_inputs_append, cycle_run k hk]
    simp only [Option.some_bind]
    rw [ih _ (wrap_int_range _)]
    congr 2
    unfold wrap_int
    push_cast
    omega

theorem cycleState_reachable (m : Nat) :
    ReachableFromReset (cycleState (wrap_int (200 * (m : Int)))) := by
  refine ⟨idleState, 2000, 1, (cycleState 0).game, cycles m, reset_game_eq _ _ _, ?_⟩
  have h := cycles_run m 0 (by decide)
  rw [zero_add] at h
  exact h

theorem lastState_reachable (m : Nat) :
    ReachableFromReset (lastState (wrap_int (200 * (m : Int)))) := by
  refine ⟨idleState, 2000, 1, (cycleState 0).game, cycles m ++ placeInputs,
    reset_game_eq _ _ _, ?_⟩
  have h := cycles_run m 0 (by decide)
  rw [zero_add] at h
  have h' : run_inputs (cycleState 0) (cycles m ++ placeInputs)
      = some (lastState (wrap_int (200 * (m : Int)))) := by
    rw [run_inputs_append, h]
    simp only [Option.some_bind]
    exact place_run _ (wrap_int_range _)
  exact h'

/-- C14 as stated fails: the state `lastState 2147483600` is reachable from a
reset (10737418 cycles of five O pieces, 200 points each, then the placement of
four more pieces), it is in the Playing phase with score 2147483600, and the
fall tick that lands its piece clears two rows and leaves the score
-2147483496: a reachable state with a negative score, produced by a step of the
Playing phase from a larger score. -/
theorem score_never_decreases_counterexample :
    ReachableFromReset (lastState 2147483600) ∧
    (lastState 2147483600).game.game_started = true ∧
    (lastState 2147483600).game.game_over = false ∧
    (lastState 2147483600).game.score = 2147483600 ∧
    apply_input (lastState 2147483600) (Input.tick 2000 1)
      = some (cycleState (-2147483496)) ∧
    ReachableFromReset (cycleState (-2147483496)) ∧
    (cycleState (-2147483496)).game.score = -2147483496 ∧
    (-2147483496 : Int) < 0 ∧ (-2147483496 : Int) < 2147483600 := by
  have e1 : wrap_int (200 * ((10737418 : Nat) : Int)) = 2147483600 := by decide
  have e2 : wrap_int (200 * ((10737419 : Nat) : Int)) = -2147483496 := by decide
  have e3 : wrap_int (2147483600 + 200) = -2147483496 := by decide
  have r1 := lastState_reachable 10737418
  have r2 := cycleState_reachable 10737419
  have l := last_step 2147483600 (by decide)
  rw [e1] at r1
  rw [e2] at r2
  rw [e3] at l
  exact ⟨r1, rfl, rfl, rfl, l, r2, rfl, by decide, by decide⟩

/-- C14, amended: in every state reachable from a reset the score is a 32-bit
`int`, and every input (any event, among them move-left, move-right, soft-drop
and rotate, or a fall tick at any time with any drawn piece type) is handled.
If the score before it is non-negative and at most 2147481647 (2000 below
`INT_MAX`), the score after it is non-negative.  A step taken in the Playing
phase adds some `c` between 0 and 2000 to the score as a 32-bit sum: the score
after it is exactly `score + c`, not smaller than before, unless `score + c`
exceeds `INT_MAX`; in particular it is not smaller than before whenever the
score before is at most 2147481647.  After a reset and at most 1073741 inputs
the score is non-negative and at most 2000 times the number of inputs. -/
theorem score_never_decreases (s : MainState) (h : ReachableFromReset s) :
    (INT_MIN ≤ s.game.score ∧ s.game.score ≤ INT_MAX) ∧
    (∀ i : Input, ∃ s' : MainState, apply_input s i = some s' ∧
      (INT_MIN ≤ s'.game.score ∧ s'.game.score ≤ INT_MAX) ∧
      (0 ≤ s.game.score → s.game.score ≤ 2147481647 → 0 ≤ s'.game.score) ∧
      (s.game.game_started = true → s.game.game_over = false →
        (∃ c : Int, 0 ≤ c ∧ c ≤ 2000 ∧ s'.game.score = add_int s.game.score c ∧
          (s.game.score + c ≤ 2147483647 →
            s'.game.score = s.game.score + c ∧ s.game.score ≤ s'.game.score)) ∧
        (s.game.score ≤ 2147481647 →
          s.game.score ≤ s'.game.score ∧ s'.game.score ≤ s.game.score + 2000))) ∧
    (∀ (s0 : MainState) (ticks rnd : Nat) (g : GameState) (inputs : List Input),
      reset_game s0.game ticks rnd = some g →
      run_inputs { s0 with game := g } inputs = some s →
      inputs.length ≤ 1073741 →
      0 ≤ s.game.score ∧ s.game.score ≤ 2000 * (inputs.length : Int)) := by
  have hinv := reachable_inv s h
  refine ⟨hinv.score_int, fun i => ?_, ?_⟩
  · obtain ⟨s', hs'⟩ := apply_input_total s i
    obtain ⟨hi, hsc⟩ := apply_input_inv s s' i hinv hs'
    have hint := hinv.score_int
    simp only [INT_MIN, INT_MAX] at hint
    refine ⟨s', hs', hi.score_int, fun h0 hle => ?_, fun _ hover => ?_⟩
    · rcases hsc with ⟨_, hz⟩ | ⟨c, hc0, hc1, hc⟩
      · omega
      · rw [hc, add_int_exact s.game.score c (by simp only [INT_MIN, INT_MAX]; omega)]
        omega
    · rcases hsc with ⟨ho, _⟩ | ⟨c, hc0, hc1, hc⟩
      · rw [hover] at ho
        cases ho
      · refine ⟨⟨c, hc0, hc1, hc, fun hle => ?_⟩, fun hle => ?_⟩
        · rw [hc, add_int_exact s.game.score c (by simp only [INT_MIN, INT_MAX]; omega)]
          omega
        · rw [hc, add_int_exact s.game.score c (by simp only [INT_MIN, INT_MAX]; omega)]
          omega
  · intro s0 ticks rnd g inputs hreset hrun hlen
    have hg := reset_game_inv s0.game g ticks rnd hreset
    have hg0 : g.score = 0 := by
      rw [reset_game_eq] at hreset
      cases hreset
      rfl
    have hlen' : (inputs.length : Int) ≤ 1073741 := by exact_mod_cast hlen
    have := run_inputs_score inputs { s0 with game := g } s hg hrun
      (by show 0 ≤ g.score; omega) (by show g.score + 2000 * (inputs.length : Int) ≤ _; omega)
    have e : ({ s0 with game := g } : MainState).game.score = 0 := hg0
    rw [e] at this
    omega

/-- C14, concrete case: `playedState` is reachable from a reset by two inputs;
its score 1 is between 0 and 4000, and a further soft drop raises it to 2. -/
theorem score_never_decreases_witness :
    (0 ≤ playedState.game.score ∧ playedState.game.score ≤ 2000 * 2) ∧
    (∃ s' : MainState,
      apply_input playedState (Input.event (Event.SDL_KEYDOWN Key.SDLK_DOWN 0 0)) = some s' ∧
      playedState.game.score ≤ s'.game.score ∧
      s'.game.score ≤ playedState.game.score + 2000) ∧
    (apply_input playedState (Input.event (Event.SDL_KEYDOWN Key.SDLK_DOWN 0 0))).map
        (fun s' => s'.game.score) = some 2 := by
  have h := score_never_decreases playedState playedState_reachable
  refine ⟨h.2.2 idleState 7000 9 (freshGame 100) playedInputs (reset_game_eq _ _ _) rfl
    (by decide), ?_, by decide⟩
  obtain ⟨s', hs', _, _, hplay⟩ := h.2.1 (Input.event (Event.SDL_KEYDOWN Key.SDLK_DOWN 0 0))
  exact ⟨s', hs', (hplay rfl rfl).2 (by decide)⟩

theorem lockedState_reachable : ReachableFromReset lockedState :=
  ⟨idleState, 7000, 9, freshGame 100, lockInputs, reset_game_eq _ _ _, rfl⟩

/-- C15: in every state reachable from a reset every board cell is 0 (empty) or
a colour identifier in `1..7`.  The property is established by `reset_game`
(all cells 0), preserved by `merge_piece` when the piece type is in `0..6`, and
preserved by `clear_lines`. -/
theorem board_cells_valid (s : MainState) (h : ReachableFromReset s) :
    (∀ (r : Fin 20) (c : Fin 10), 0 ≤ s.game.board r c ∧ s.game.board r c ≤ 7) ∧
    (0 ≤ s.game.current.type ∧ s.game.current.type ≤ 6) ∧
    (∀ (g0 : GameState) (ticks rnd : Nat), ∃ g : GameState,
      reset_game g0 ticks rnd = some g ∧ ∀ (r : Fin 20) (c : Fin 10), g.board r c = 0) ∧
    (∀ g : GameState, (0 ≤ g.current.type ∧ g.current.type ≤ 6) →
      (∀ (r : Fin 20) (c : Fin 10), 0 ≤ g.board r c ∧ g.board r c ≤ 7) →
      ∃ g1 : GameState, merge_piece g = some g1 ∧
        ∀ (r : Fin 20) (c : Fin 10), 0 ≤ g1.board r c ∧ g1.board r c ≤ 7) ∧
    (∀ g : GameState,
      (∀ (r : Fin 20) (c : Fin 10), 0 ≤ g.board r c ∧ g.board r c ≤ 7) →
      ∃ (n : Int) (g2 : GameState), clear_lines g = some (n, g2) ∧
        ∀ (r : Fin 20) (c : Fin 10), 0 ≤ g2.board r c ∧ g2.board r c ≤ 7) := by
  have hinv := reachable_inv s h
  refine ⟨hinv.cells, hinv.type_range, ?_, ?_, ?_⟩
  · intro g0 ticks rnd
    exact ⟨_, reset_game_eq g0 ticks rnd, fun _ _ => rfl⟩
  · intro g ht hc
    exact ⟨_, merge_piece_eq g, mergedBoard_cells g.current g.board cells4x4 ht hc⟩
  · intro g hc
    obtain ⟨n, g2, h2, _⟩ := clear_lines_frame g
    exact ⟨n, g2, h2, clear_lines_cells g g2 n h2 hc⟩

/-- C15, concrete case: `lockedState` is reachable from a reset; its board holds
the locked T piece as four cells of value 3 and is empty elsewhere. -/
theorem board_cells_valid_witness :
    (∀ (r : Fin 20) (c : Fin 10),
      0 ≤ lockedState.game.board r c ∧ lockedState.game.board r c ≤ 7) ∧
    (∀ (r : Fin 20) (c : Fin 10),
      lockedState.game.board r c
        = if (r.val = 18 ∧ c.val = 4) ∨ (r.val = 19 ∧ 3 ≤ c.val ∧ c.val ≤ 5) then 3 else 0) :=
  ⟨(board_cells_valid lockedState lockedState_reachable).1, by decide⟩

/-- C17: in every state reachable from a reset the game has been started, and
while it is not over the active piece is collision-free at its position:
`check_collision` at offset `(0, 0)` returns false.  `reset_game` establishes
this, and every input (move-left, move-right, soft-drop, rotate, any other
event, any fall tick) that leaves the game not over preserves it. -/
theorem active_piece_collision_free (s : MainState) (h : ReachableFromReset s)
    (hover : s.game.game_over = false) :
    s.game.game_started = true ∧
    check_collision s.game s.game.current 0 0 = some false ∧
    (∀ (g0 : GameState) (ticks rnd : Nat), ∃ g : GameState,
      reset_game g0 ticks rnd = some g ∧ g.game_started = true ∧ g.game_over = false ∧
      check_collision g g.current 0 0 = some false) ∧
    (∀ i : Input, ∃ s' : MainState, apply_input s i = some s' ∧
      (s'.game.game_over = false →
        check_collision s'.game s'.game.current 0 0 = some false)) := by
  have hinv := reachable_inv s h
  refine ⟨hinv.started, hinv.free hover, ?_, ?_⟩
  · intro g0 ticks rnd
    exact ⟨_, reset_game_eq g0 ticks rnd, rfl, rfl,
      (reset_game_inv g0 _ ticks rnd (reset_game_eq g0 ticks rnd)).free rfl⟩
  · intro i
    obtain ⟨s', hs'⟩ := apply_input_total s i
    exact ⟨s', hs', (apply_input_inv s s' i hinv hs').1.free⟩

/-- C17, concrete case: `playedState` is reachable from a reset and not over; its
T piece is collision-free in place, and still so after a rotation. -/
theorem active_piece_collision_free_witness :
    check_collision playedState.game playedState.game.current 0 0 = some false ∧
    (apply_input playedState (Input.event (Event.SDL_KEYDOWN Key.SDLK_UP 0 0))).bind
        (fun s' => check_collision s'.game s'.game.current 0 0) = some false :=
  ⟨(active_piece_collision_free playedState playedState_reachable rfl).2.1, by decide⟩

/-- C19: in every state reachable from a reset in which the game is not over, the
active piece has exactly four occupied cells, and each of them lies inside the
board (row in `0..19`, column in `0..9`) on an empty board cell.  Consequently
`merge_piece` changes exactly four board cells, writes `type + 1` (which is
not 0) at the position of every occupied cell, and leaves every cell that was
already occupied on the board as it was. -/
theorem active_piece_four_cells (s : MainState) (h : ReachableFromReset s)
    (hover : s.game.game_over = false) :
    occupiedCount s.game.current.shape = 4 ∧
    (∀ i j : Fin 4, s.game.current.shape i j ≠ 0 →
      0 ≤ s.game.current.y + (i.val : Int) ∧ s.game.current.y + (i.val : Int) < 20 ∧
      0 ≤ s.game.current.x + (j.val : Int) ∧ s.game.current.x + (j.val : Int) < 10 ∧
      readCell s.game.board (s.game.current.y + (i.val : Int))
        (s.game.current.x + (j.val : Int)) = some 0) ∧
    ∃ g1 : GameState, merge_piece s.game = some g1 ∧
      (Finset.univ.filter (fun rc : Fin 20 × Fin 10 =>
        g1.board rc.1 rc.2 ≠ s.game.board rc.1 rc.2)).card = 4 ∧
      (∀ i j : Fin 4, s.game.current.shape i j ≠ 0 →
        readCell g1.board (s.game.current.y + (i.val : Int))
          (s.game.current.x + (j.val : Int)) = some (s.game.current.type + 1) ∧
        s.game.current.type + 1 ≠ 0) ∧
      (∀ (r : Fin 20) (c : Fin 10), s.game.board r c ≠ 0 →
        g1.board r c = s.game.board r c) := by
  have hinv := reachable_inv s h
  have hfree := hinv.free hover
  have hfacts := occupied_cell_facts s.game hinv.x_range hinv.y_range hfree
  refine ⟨hinv.four, hfacts, _, merge_piece_eq s.game, ?_, ?_, ?_⟩
  · exact (merge_changes_count s.game hinv.x_range hinv.y_range hinv.type_range.1 hfree).trans hinv.four
  · intro i j hocc
    obtain ⟨h1, h2, h3, h4, _⟩ := hfacts i j hocc
    have ht := hinv.type_range.1
    refine ⟨?_, by omega⟩
    rw [readCell_of_range _ _ _ ⟨h1, h2, h3, h4⟩]
    exact congrArg some (mergedBoard_written s.game i j _ _ hocc
      (by simp only; omega) (by simp only; omega))
  · intro r c hne
    apply mergedBoard_kept
    rintro ⟨i, j, hocc, hr, hc⟩
    obtain ⟨_, _, _, _, h0⟩ := hfacts i j hocc
    rw [hr, hc, readCell_fin] at h0
    exact hne (Option.some.inj h0)

/-- C19, concrete case: in `lockedState` (T piece locked at the bottom, O piece
spawned, game not over) the O piece has four cells over empty board cells, and
merging it changes exactly the cells of rows 1 and 2 in columns 4 and 5. -/
theorem active_piece_four_cells_witness :
    (occupiedCount lockedState.game.current.shape = 4 ∧
      (∀ i j : Fin 4, lockedState.game.current.shape i j ≠ 0 →
        0 ≤ lockedState.game.current.y + (i.val : Int) ∧
        lockedState.game.current.y + (i.val : Int) < 20 ∧
        0 ≤ lockedState.game.current.x + (j.val : Int) ∧
        lockedState.game.current.x + (j.val : Int) < 10 ∧
        readCell lockedState.game.board (lockedState.game.current.y + (i.val : Int))
          (lockedState.game.current.x + (j.val : Int)) = some 0) ∧
      ∃ g1 : GameState, merge_piece lockedState.game = some g1 ∧
        (Finset.univ.filter (fun rc : Fin 20 × Fin 10 =>
          g1.board rc.1 rc.2 ≠ lockedState.game.board rc.1 rc.2)).card = 4 ∧
        (∀ i j : Fin 4, lockedState.game.current.shape i j ≠ 0 →
          readCell g1.board (lockedState.game.current.y + (i.val : Int))
            (lockedState.game.current.x + (j.val : Int))
              = some (lockedState.game.current.type + 1) ∧
          lockedState.game.current.type + 1 ≠ 0) ∧
        (∀ (r : Fin 20) (c : Fin 10), lockedState.game.board r c ≠ 0 →
          g1.board r c = lockedState.game.board r c)) ∧
    (∀ (r : Fin 20) (c : Fin 10),
      (merge_piece lockedState.game).map (fun g1 => g1.board r c)
        = some (if (r.val = 1 ∨ r.val = 2) ∧ (c.val = 4 ∨ c.val = 5) then 2
                else lockedState.game.board r c)) :=
  ⟨active_piece_four_cells lockedState lockedState_reachable (by decide), by decide⟩

end Tetris
